import Mathlib

/-!
# Verification of the car-rental fixed-length record store

Shallow embedding of `src/car_rental.py`: the fixed-length UTF-8 field codec
(`fixed_bytes` / `bytes_to_str`), the per-entity `pack` / `unpack` record
codecs, the flat-file repositories (`add`, `update`, `mark_deleted`,
`delete_customer`), the atomic full-file rewrite (`overwrite_all_raw`), and
the date helpers (`parse_date`, `date_diff_days`).

Python strings are modelled as lists of Unicode code points (`Str`), byte
strings as lists of naturals below 256 (`List Nat`).  IEEE-754 doubles only
flow through `struct.pack('d')` / `struct.unpack('d')` unchanged, so a double
field is modelled by its 64-bit pattern.
-/

/-- A Python `str`: a list of Unicode code points. -/
abbrev Str := List Nat

/-- A code point that `str.encode('utf-8')` accepts: a Unicode scalar value
(below 0x110000 and not a surrogate). -/
def validScalar (c : Nat) : Prop := c < 0x110000 ∧ ¬(0xD800 ≤ c ∧ c ≤ 0xDFFF)

instance (c : Nat) : Decidable (validScalar c) := by unfold validScalar; infer_instance

/-- Every code point of the string is a Unicode scalar value. -/
def ValidStr (s : Str) : Prop := ∀ c ∈ s, validScalar c

instance (s : Str) : Decidable (ValidStr s) := by unfold ValidStr; infer_instance

/-- UTF-8 encoding of one scalar value (the byte sequence `chr(c).encode('utf-8')`). -/
def utf8EncodeChar (c : Nat) : List Nat :=
  if c < 0x80 then [c]
  else if c < 0x800 then [0xC0 + c / 0x40, 0x80 + c % 0x40]
  else if c < 0x10000 then
    [0xE0 + c / 0x1000, 0x80 + c / 0x40 % 0x40, 0x80 + c % 0x40]
  else
    [0xF0 + c / 0x40000, 0x80 + c / 0x1000 % 0x40, 0x80 + c / 0x40 % 0x40, 0x80 + c % 0x40]

/-- Source `s.encode('utf-8')` on a valid string: concatenation of the characters' encodings. -/
def utf8Encode (s : Str) : List Nat := (s.map utf8EncodeChar).flatten

/-- A UTF-8 continuation byte. -/
def isCont (b : Nat) : Bool := decide (0x80 ≤ b) && decide (b < 0xC0)

/-- Strict UTF-8 decoding with invalid bytes dropped, as in
`b.decode('utf-8', errors='ignore')`.  `fuel` bounds the recursion; one unit is
spent per step and every step consumes at least one byte, so `fuel = l.length`
is always enough. -/
def utf8DecodeAux : Nat → List Nat → List Nat
  | 0, _ => []
  | _ + 1, [] => []
  | fuel + 1, b :: rest =>
    if b < 0x80 then b :: utf8DecodeAux fuel rest
    else if b < 0xC0 then utf8DecodeAux fuel rest
    else if b < 0xE0 then
      match rest with
      | b1 :: rest1 =>
        if isCont b1 then
          let v := (b - 0xC0) * 0x40 + (b1 - 0x80)
          if 0x80 ≤ v then v :: utf8DecodeAux fuel rest1 else utf8DecodeAux fuel rest1
        else utf8DecodeAux fuel rest
      | [] => []
    else if b < 0xF0 then
      match rest with
      | b1 :: b2 :: rest2 =>
        if isCont b1 && isCont b2 then
          let v := (b - 0xE0) * 0x1000 + (b1 - 0x80) * 0x40 + (b2 - 0x80)
          if 0x800 ≤ v ∧ ¬(0xD800 ≤ v ∧ v ≤ 0xDFFF) then v :: utf8DecodeAux fuel rest2
          else utf8DecodeAux fuel rest2
        else utf8DecodeAux fuel rest
      | _ => []
    else if b < 0xF8 then
      match rest with
      | b1 :: b2 :: b3 :: rest3 =>
        if isCont b1 && isCont b2 && isCont b3 then
          let v := (b - 0xF0) * 0x40000 + (b1 - 0x80) * 0x1000 +
            (b2 - 0x80) * 0x40 + (b3 - 0x80)
          if 0x10000 ≤ v ∧ v < 0x110000 then v :: utf8DecodeAux fuel rest3
          else utf8DecodeAux fuel rest3
        else utf8DecodeAux fuel rest
      | _ => []
    else utf8DecodeAux fuel rest

/-- Source `b.decode('utf-8', errors='ignore')`. -/
def utf8Decode (l : List Nat) : List Nat := utf8DecodeAux l.length l

/-- Source `b.rstrip(b' ')`: drop trailing space bytes. -/
def rstripSpaces (l : List Nat) : List Nat := (l.reverse.dropWhile (· == 0x20)).reverse

/-- Source `fixed_bytes(s, length)` from `car_rental.py`: encode to UTF-8, truncate to
`length` bytes, pad with spaces to exactly `length` bytes. -/
def fixed_bytes (s : Str) (length : Nat) : List Nat :=
  let b := (utf8Encode s).take length
  b ++ List.replicate (length - b.length) 0x20

/-- Source `bytes_to_str(b)` from `car_rental.py`: strip trailing spaces, lossy UTF-8 decode. -/
def bytes_to_str (b : List Nat) : Str := utf8Decode (rstripSpaces b)

example : fixed_bytes [97, 98] 5 = [97, 98, 32, 32, 32] := by decide
example : bytes_to_str [97, 98, 32, 32, 32] = [97, 98] := by decide
example : bytes_to_str [0xE0, 0xB8, 0x81, 32] = [0x0E01] := by decide
example : fixed_bytes [0x0E01, 0x0E02] 5 = [0xE0, 0xB8, 0x81, 0xE0, 0xB8] := by decide
example : bytes_to_str [32, 0xFF] = [32] := by decide
example : bytes_to_str (fixed_bytes [97, 32] 10) = [97] := by decide

/-! ## Lemmas about the UTF-8 codec -/

theorem utf8EncodeChar_ascii {c : Nat} (h : c < 0x80) : utf8EncodeChar c = [c] := by
  rw [utf8EncodeChar, if_pos h]

theorem utf8EncodeChar_two {c : Nat} (h1 : 0x80 ≤ c) (h2 : c < 0x800) :
    utf8EncodeChar c = [0xC0 + c / 0x40, 0x80 + c % 0x40] := by
  rw [utf8EncodeChar, if_neg (by omega), if_pos h2]

theorem utf8EncodeChar_three {c : Nat} (h1 : 0x800 ≤ c) (h2 : c < 0x10000) :
    utf8EncodeChar c = [0xE0 + c / 0x1000, 0x80 + c / 0x40 % 0x40, 0x80 + c % 0x40] := by
  rw [utf8EncodeChar, if_neg (by omega), if_neg (by omega), if_pos h2]

theorem utf8EncodeChar_four {c : Nat} (h1 : 0x10000 ≤ c) :
    utf8EncodeChar c =
      [0xF0 + c / 0x40000, 0x80 + c / 0x1000 % 0x40, 0x80 + c / 0x40 % 0x40, 0x80 + c % 0x40] := by
  rw [utf8EncodeChar, if_neg (by omega), if_neg (by omega), if_neg (by omega)]

theorem utf8EncodeChar_ne_nil (c : Nat) : utf8EncodeChar c ≠ [] := by
  rw [utf8EncodeChar]
  split_ifs <;> simp

theorem utf8Encode_nil : utf8Encode [] = [] := rfl

theorem utf8Encode_cons (c : Nat) (s : Str) :
    utf8Encode (c :: s) = utf8EncodeChar c ++ utf8Encode s := by
  simp [utf8Encode]

theorem utf8DecodeAux_nil (fuel : Nat) : utf8DecodeAux fuel [] = [] := by
  cases fuel <;> rfl

set_option maxRecDepth 16384

theorem utf8DecodeAux_encodeChar {c : Nat} (hc : validScalar c) (fuel : Nat) (bs : List Nat) :
    utf8DecodeAux (fuel + 1) (utf8EncodeChar c ++ bs) = c :: utf8DecodeAux fuel bs := by
  obtain ⟨h1, h2⟩ := hc
  by_cases ha : c < 0x80
  · rw [utf8EncodeChar_ascii ha]
    show utf8DecodeAux (fuel + 1) (c :: bs) = _
    rw [utf8DecodeAux.eq_def]
    dsimp only
    rw [if_pos ha]
  · by_cases hb : c < 0x800
    · rw [utf8EncodeChar_two (by omega) hb]
      show utf8DecodeAux (fuel + 1) (_ :: _ :: bs) = _
      rw [utf8DecodeAux.eq_def]
      dsimp only
      rw [if_neg (by omega), if_neg (by omega), if_pos (by omega),
        if_pos (show isCont (0x80 + c % 0x40) = true by
          simp only [isCont, Bool.and_eq_true, decide_eq_true_eq]; omega)]
      have hcond : (0x80 : Nat) ≤ (0xC0 + c / 0x40 - 0xC0) * 0x40 + (0x80 + c % 0x40 - 0x80) := by
        omega
      rw [if_pos hcond]
      congr 1
      omega
    · by_cases hc3 : c < 0x10000
      · rw [utf8EncodeChar_three (by omega) hc3]
        show utf8DecodeAux (fuel + 1) (_ :: _ :: _ :: bs) = _
        rw [utf8DecodeAux.eq_def]
        dsimp only
        rw [if_neg (by omega), if_neg (by omega), if_neg (by omega), if_pos (by omega),
          if_pos (show (isCont (0x80 + c / 0x40 % 0x40) && isCont (0x80 + c % 0x40)) = true by
            simp only [isCont, Bool.and_eq_true, decide_eq_true_eq]; omega)]
        have hv : (0xE0 + c / 0x1000 - 0xE0) * 0x1000 +
            (0x80 + c / 0x40 % 0x40 - 0x80) * 0x40 + (0x80 + c % 0x40 - 0x80) = c := by
          omega
        rw [hv]
        have hcond : 0x800 ≤ c ∧ ¬(0xD800 ≤ c ∧ c ≤ 0xDFFF) := by omega
        rw [if_pos hcond]
      · rw [utf8EncodeChar_four (by omega)]
        show utf8DecodeAux (fuel + 1) (_ :: _ :: _ :: _ :: bs) = _
        rw [utf8DecodeAux.eq_def]
        dsimp only
        rw [if_neg (by omega), if_neg (by omega), if_neg (by omega), if_neg (by omega),
          if_pos (by omega),
          if_pos (show (isCont (0x80 + c / 0x1000 % 0x40) && isCont (0x80 + c / 0x40 % 0x40) &&
              isCont (0x80 + c % 0x40)) = true by
            simp only [isCont, Bool.and_eq_true, decide_eq_true_eq]; omega)]
        have hv : (0xF0 + c / 0x40000 - 0xF0) * 0x40000 +
            (0x80 + c / 0x1000 % 0x40 - 0x80) * 0x1000 +
            (0x80 + c / 0x40 % 0x40 - 0x80) * 0x40 + (0x80 + c % 0x40 - 0x80) = c := by
          omega
        rw [hv]
        have hcond : 0x10000 ≤ c ∧ c < 0x110000 := by omega
        rw [if_pos hcond]

theorem length_utf8Encode_ge (s : Str) : s.length ≤ (utf8Encode s).length := by
  induction s with
  | nil => simp [utf8Encode]
  | cons c rest ih =>
    rw [utf8Encode_cons]
    have h1 : 1 ≤ (utf8EncodeChar c).length := by
      cases h : utf8EncodeChar c with
      | nil => exact absurd h (utf8EncodeChar_ne_nil c)
      | cons a t => simp
    simp only [List.length_append, List.length_cons]
    omega

theorem utf8Encode_ne_nil {s : Str} (h : s ≠ []) : utf8Encode s ≠ [] := by
  intro he
  have := length_utf8Encode_ge s
  rw [he] at this
  simp at this
  exact h this

theorem utf8DecodeAux_encode_append (s : Str) (fuel : Nat) (bs : List Nat) :
    ValidStr s →
      utf8DecodeAux (s.length + fuel) (utf8Encode s ++ bs) = s ++ utf8DecodeAux fuel bs := by
  induction s with
  | nil => intro _; simp [utf8Encode_nil]
  | cons c rest ih =>
    intro hs
    have hc : validScalar c := hs c (List.mem_cons_self _ _)
    have hrest : ValidStr rest := fun x hx => hs x (List.mem_cons_of_mem _ hx)
    rw [utf8Encode_cons, List.append_assoc, List.length_cons,
      show rest.length + 1 + fuel = rest.length + fuel + 1 by omega,
      utf8DecodeAux_encodeChar hc, ih hrest]
    rfl

theorem utf8Decode_utf8Encode {s : Str} (hs : ValidStr s) : utf8Decode (utf8Encode s) = s := by
  have hlen := length_utf8Encode_ge s
  have h := utf8DecodeAux_encode_append s ((utf8Encode s).length - s.length) [] hs
  rw [List.append_nil, utf8DecodeAux_nil, List.append_nil] at h
  rw [utf8Decode,
    show (utf8Encode s).length = s.length + ((utf8Encode s).length - s.length) by omega]
  exact h

theorem rstripSpaces_append_replicate (l : List Nat) (k : Nat) :
    rstripSpaces (l ++ List.replicate k 0x20) = rstripSpaces l := by
  unfold rstripSpaces
  rw [List.reverse_append, List.reverse_replicate]
  congr 1
  induction k with
  | zero => simp
  | succ n ihn =>
    rw [List.replicate_succ, List.cons_append, List.dropWhile_cons]
    simp only [beq_self_eq_true, if_true]
    exact ihn

theorem rstripSpaces_of_getLast {l : List Nat} (h : l.getLast? ≠ some 0x20) :
    rstripSpaces l = l := by
  unfold rstripSpaces
  cases hrev : l.reverse with
  | nil =>
    have : l = [] := by simpa using congrArg List.reverse hrev
    simp [this]
  | cons a t =>
    have hlast : l.getLast? = some a := by
      rw [← List.head?_reverse, hrev]
      rfl
    have ha : a ≠ 0x20 := fun e => h (by rw [hlast, e])
    rw [List.dropWhile_cons, if_neg (by simp [ha])]
    rw [← hrev, List.reverse_reverse]

theorem length_rstripSpaces_le (l : List Nat) : (rstripSpaces l).length ≤ l.length := by
  unfold rstripSpaces
  calc (l.reverse.dropWhile (· == 0x20)).reverse.length
      = (l.reverse.dropWhile (· == 0x20)).length := by rw [List.length_reverse]
    _ ≤ l.reverse.length := (List.dropWhile_sublist _).length_le
    _ = l.length := List.length_reverse _

theorem utf8EncodeChar_getLast_ne_space {c : Nat} (hne : c ≠ 0x20) :
    (utf8EncodeChar c).getLast? ≠ some 0x20 := by
  by_cases ha : c < 0x80
  · rw [utf8EncodeChar_ascii ha]
    simpa using hne
  · by_cases hb : c < 0x800
    · rw [utf8EncodeChar_two (by omega) hb]
      simp only [List.getLast?_cons_cons, List.getLast?_singleton, ne_eq, Option.some.injEq]
      omega
    · by_cases hc3 : c < 0x10000
      · rw [utf8EncodeChar_three (by omega) hc3]
        simp only [List.getLast?_cons_cons, List.getLast?_singleton, ne_eq, Option.some.injEq]
        omega
      · rw [utf8EncodeChar_four (by omega)]
        simp only [List.getLast?_cons_cons, List.getLast?_singleton, ne_eq, Option.some.injEq]
        omega

theorem utf8Encode_getLast_ne_space (s : Str) :
    s.getLast? ≠ some 0x20 → (utf8Encode s).getLast? ≠ some 0x20 := by
  induction s with
  | nil => intro _; simp [utf8Encode_nil]
  | cons c rest ih =>
    intro h
    cases hr : rest with
    | nil =>
      subst hr
      rw [utf8Encode_cons, utf8Encode_nil, List.append_nil]
      exact utf8EncodeChar_getLast_ne_space (by simpa using h)
    | cons d t =>
      subst hr
      rw [utf8Encode_cons,
        List.getLast?_append_of_ne_nil _ (utf8Encode_ne_nil (by simp))]
      exact ih (by simpa using h)

/-- The central decode-of-encode identity for one fixed-width field: a valid
string that fits in the field and does not end in a space byte survives the
pad-then-strip round trip. -/
theorem bytes_to_str_fixed_bytes {s : Str} {w : Nat} (hv : ValidStr s)
    (hl : (utf8Encode s).length ≤ w) (hn : s.getLast? ≠ some 0x20) :
    bytes_to_str (fixed_bytes s w) = s := by
  unfold bytes_to_str fixed_bytes
  dsimp only
  rw [List.take_of_length_le hl, rstripSpaces_append_replicate,
    rstripSpaces_of_getLast (utf8Encode_getLast_ne_space s hn),
    utf8Decode_utf8Encode hv]

theorem isCont_iff {b : Nat} : isCont b = true ↔ 0x80 ≤ b ∧ b < 0xC0 := by
  simp [isCont]

/-- Everything the lossy decoder emits is a Unicode scalar value: the model of
"`decode('utf-8', errors='ignore')` always returns a well-formed `str`". -/
theorem validStr_utf8DecodeAux : ∀ (fuel : Nat) (l : List Nat), ValidStr (utf8DecodeAux fuel l) := by
  intro fuel
  induction fuel with
  | zero => intro l c hc; simp [utf8DecodeAux] at hc
  | succ n ih =>
    intro l
    rcases l with _ | ⟨b, rest⟩
    · intro c hc
      rw [utf8DecodeAux_nil] at hc
      simp at hc
    · rw [utf8DecodeAux.eq_def]
      dsimp only
      by_cases h1 : b < 0x80
      · rw [if_pos h1]
        intro c hc
        rcases List.mem_cons.mp hc with he | ht
        · subst he; exact ⟨by omega, by omega⟩
        · exact ih rest c ht
      · rw [if_neg h1]
        by_cases h2 : b < 0xC0
        · rw [if_pos h2]; exact ih rest
        · rw [if_neg h2]
          by_cases h3 : b < 0xE0
          · rw [if_pos h3]
            rcases rest with _ | ⟨b1, rest1⟩
            · intro c hc; simp at hc
            · dsimp only
              by_cases hk : isCont b1
              · rw [if_pos hk]
                obtain ⟨hk1, hk2⟩ := isCont_iff.mp hk
                by_cases hv : (0x80 : Nat) ≤ (b - 0xC0) * 0x40 + (b1 - 0x80)
                · rw [if_pos hv]
                  intro c hc
                  rcases List.mem_cons.mp hc with he | ht
                  · subst he; exact ⟨by omega, by omega⟩
                  · exact ih rest1 c ht
                · rw [if_neg hv]; exact ih rest1
              · rw [if_neg hk]; exact ih (b1 :: rest1)
          · rw [if_neg h3]
            by_cases h4 : b < 0xF0
            · rw [if_pos h4]
              rcases rest with _ | ⟨b1, rest2⟩
              · intro c hc; simp at hc
              · rcases rest2 with _ | ⟨b2, rest2⟩
                · intro c hc; simp at hc
                · dsimp only
                  by_cases hk : (isCont b1 && isCont b2) = true
                  · rw [if_pos hk]
                    rw [Bool.and_eq_true] at hk
                    obtain ⟨hk1, hk2⟩ := isCont_iff.mp hk.1
                    obtain ⟨hk3, hk4⟩ := isCont_iff.mp hk.2
                    by_cases hv : 0x800 ≤ (b - 0xE0) * 0x1000 + (b1 - 0x80) * 0x40 + (b2 - 0x80) ∧
                        ¬(0xD800 ≤ (b - 0xE0) * 0x1000 + (b1 - 0x80) * 0x40 + (b2 - 0x80) ∧
                          (b - 0xE0) * 0x1000 + (b1 - 0x80) * 0x40 + (b2 - 0x80) ≤ 0xDFFF)
                    · rw [if_pos hv]
                      intro c hc
                      rcases List.mem_cons.mp hc with he | ht
                      · subst he
                        exact ⟨by omega, hv.2⟩
                      · exact ih rest2 c ht
                    · rw [if_neg hv]; exact ih rest2
                  · rw [if_neg hk]; exact ih (b1 :: b2 :: rest2)
            · rw [if_neg h4]
              by_cases h5 : b < 0xF8
              · rw [if_pos h5]
                rcases rest with _ | ⟨b1, rest3⟩
                · intro c hc; simp at hc
                · rcases rest3 with _ | ⟨b2, rest3⟩
                  · intro c hc; simp at hc
                  · rcases rest3 with _ | ⟨b3, rest3⟩
                    · intro c hc; simp at hc
                    · dsimp only
                      by_cases hk : (isCont b1 && isCont b2 && isCont b3) = true
                      · rw [if_pos hk]
                        simp only [Bool.and_eq_true] at hk
                        by_cases hv : 0x10000 ≤ (b - 0xF0) * 0x40000 + (b1 - 0x80) * 0x1000 +
                              (b2 - 0x80) * 0x40 + (b3 - 0x80) ∧
                            (b - 0xF0) * 0x40000 + (b1 - 0x80) * 0x1000 +
                              (b2 - 0x80) * 0x40 + (b3 - 0x80) < 0x110000
                        · rw [if_pos hv]
                          intro c hc
                          rcases List.mem_cons.mp hc with he | ht
                          · subst he; exact ⟨hv.2, by omega⟩
                          · exact ih rest3 c ht
                        · rw [if_neg hv]; exact ih rest3
                      · rw [if_neg hk]; exact ih (b1 :: b2 :: b3 :: rest3)
              · rw [if_neg h5]; exact ih rest

theorem validStr_bytes_to_str (b : List Nat) : ValidStr (bytes_to_str b) :=
  validStr_utf8DecodeAux _ _

/-- Re-encoding what the lossy decoder produced never takes more bytes than the
input had: each emitted scalar's minimal encoding is exactly the bytes consumed. -/
theorem length_utf8Encode_utf8DecodeAux :
    ∀ (fuel : Nat) (l : List Nat), (utf8Encode (utf8DecodeAux fuel l)).length ≤ l.length := by
  intro fuel
  induction fuel with
  | zero => intro l; simp [utf8DecodeAux, utf8Encode_nil]
  | succ n ih =>
    intro l
    rcases l with _ | ⟨b, rest⟩
    · simp [utf8DecodeAux_nil, utf8Encode_nil]
    · rw [utf8DecodeAux.eq_def]
      dsimp only
      by_cases h1 : b < 0x80
      · rw [if_pos h1, utf8Encode_cons, utf8EncodeChar_ascii h1]
        have := ih rest
        simp only [List.length_append, List.length_cons, List.length_nil]
        omega
      · rw [if_neg h1]
        by_cases h2 : b < 0xC0
        · rw [if_pos h2]
          have := ih rest
          simp only [List.length_cons]
          omega
        · rw [if_neg h2]
          by_cases h3 : b < 0xE0
          · rw [if_pos h3]
            rcases rest with _ | ⟨b1, rest1⟩
            · simp [utf8Encode_nil]
            · dsimp only
              by_cases hk : isCont b1
              · rw [if_pos hk]
                obtain ⟨hk1, hk2⟩ := isCont_iff.mp hk
                by_cases hv : (0x80 : Nat) ≤ (b - 0xC0) * 0x40 + (b1 - 0x80)
                · rw [if_pos hv, utf8Encode_cons, utf8EncodeChar_two hv (by omega)]
                  have := ih rest1
                  simp only [List.length_append, List.length_cons, List.length_nil]
                  omega
                · rw [if_neg hv]
                  have := ih rest1
                  simp only [List.length_cons]
                  omega
              · rw [if_neg hk]
                have := ih (b1 :: rest1)
                simp only [List.length_cons] at this ⊢
                omega
          · rw [if_neg h3]
            by_cases h4 : b < 0xF0
            · rw [if_pos h4]
              rcases rest with _ | ⟨b1, rest2⟩
              · simp [utf8Encode_nil]
              · rcases rest2 with _ | ⟨b2, rest2⟩
                · simp [utf8Encode_nil]
                · dsimp only
                  by_cases hk : (isCont b1 && isCont b2) = true
                  · rw [if_pos hk]
                    rw [Bool.and_eq_true] at hk
                    obtain ⟨hk1, hk2⟩ := isCont_iff.mp hk.1
                    obtain ⟨hk3, hk4⟩ := isCont_iff.mp hk.2
                    by_cases hv : 0x800 ≤ (b - 0xE0) * 0x1000 + (b1 - 0x80) * 0x40 + (b2 - 0x80) ∧
                        ¬(0xD800 ≤ (b - 0xE0) * 0x1000 + (b1 - 0x80) * 0x40 + (b2 - 0x80) ∧
                          (b - 0xE0) * 0x1000 + (b1 - 0x80) * 0x40 + (b2 - 0x80) ≤ 0xDFFF)
                    · rw [if_pos hv, utf8Encode_cons, utf8EncodeChar_three hv.1 (by omega)]
                      have := ih rest2
                      simp only [List.length_append, List.length_cons, List.length_nil]
                      omega
                    · rw [if_neg hv]
                      have := ih rest2
                      simp only [List.length_cons]
                      omega
                  · rw [if_neg hk]
                    have := ih (b1 :: b2 :: rest2)
                    simp only [List.length_cons] at this ⊢
                    omega
            · rw [if_neg h4]
              by_cases h5 : b < 0xF8
              · rw [if_pos h5]
                rcases rest with _ | ⟨b1, rest3⟩
                · simp [utf8Encode_nil]
                · rcases rest3 with _ | ⟨b2, rest3⟩
                  · simp [utf8Encode_nil]
                  · rcases rest3 with _ | ⟨b3, rest3⟩
                    · simp [utf8Encode_nil]
                    · dsimp only
                      by_cases hk : (isCont b1 && isCont b2 && isCont b3) = true
                      · rw [if_pos hk]
                        by_cases hv : 0x10000 ≤ (b - 0xF0) * 0x40000 + (b1 - 0x80) * 0x1000 +
                              (b2 - 0x80) * 0x40 + (b3 - 0x80) ∧
                            (b - 0xF0) * 0x40000 + (b1 - 0x80) * 0x1000 +
                              (b2 - 0x80) * 0x40 + (b3 - 0x80) < 0x110000
                        · rw [if_pos hv, utf8Encode_cons, utf8EncodeChar_four hv.1]
                          have := ih rest3
                          simp only [List.length_append, List.length_cons, List.length_nil]
                          omega
                        · rw [if_neg hv]
                          have := ih rest3
                          simp only [List.length_cons]
                          omega
                      · rw [if_neg hk]
                        have := ih (b1 :: b2 :: b3 :: rest3)
                        simp only [List.length_cons] at this ⊢
                        omega
              · rw [if_neg h5]
                have := ih rest
                simp only [List.length_cons]
                omega

theorem length_utf8Encode_bytes_to_str (b : List Nat) :
    (utf8Encode (bytes_to_str b)).length ≤ b.length := by
  unfold bytes_to_str utf8Decode
  calc (utf8Encode (utf8DecodeAux (rstripSpaces b).length (rstripSpaces b))).length
      ≤ (rstripSpaces b).length := length_utf8Encode_utf8DecodeAux _ _
    _ ≤ b.length := length_rstripSpaces_le b

/-! ## Little-endian fixed-width integers (struct codes `I` and `d`) -/

/-- The `k` little-endian bytes written by `struct.pack` for an in-range value
(`struct` itself raises on an out-of-range one, so theorems carry the range as
a hypothesis).  A `d` field holds an IEEE-754 double; `struct.pack('d')` /
`struct.unpack('d')` only move its 64-bit pattern, which is what is modelled. -/
def natToLE : Nat → Nat → List Nat
  | 0, _ => []
  | k + 1, n => n % 256 :: natToLE k (n / 256)

/-- The integer `struct.unpack` reads back from little-endian bytes. -/
def leToNat : List Nat → Nat
  | [] => 0
  | b :: rest => b % 256 + 256 * leToNat rest

theorem length_natToLE (k n : Nat) : (natToLE k n).length = k := by
  induction k generalizing n with
  | zero => rfl
  | succ m ih => simp [natToLE, ih]

theorem leToNat_natToLE (k n : Nat) : leToNat (natToLE k n) = n % 256 ^ k := by
  induction k generalizing n with
  | zero => simp [natToLE, leToNat]; omega
  | succ m ih =>
    rw [natToLE, leToNat, ih, Nat.mod_mod_of_dvd _ (by norm_num), pow_succ,
      mul_comm (256 ^ m) 256, Nat.mod_mul]

theorem leToNat_lt (l : List Nat) : leToNat l < 256 ^ l.length := by
  induction l with
  | nil => simp [leToNat]
  | cons b rest ih =>
    rw [leToNat, List.length_cons, pow_succ, mul_comm (256 ^ rest.length) 256]
    have hb : b % 256 < 256 := Nat.mod_lt _ (by norm_num)
    calc b % 256 + 256 * leToNat rest
        < 256 + 256 * leToNat rest := by omega
      _ ≤ 256 * (leToNat rest + 1) := by ring_nf; omega
      _ ≤ 256 * 256 ^ rest.length := Nat.mul_le_mul_left _ (by omega)

/-! ## Entities and their record codecs -/

/-- The field of a record survives pack-then-unpack when the string is valid,
fits the field's byte width and does not end in a space. -/
def StrFits (s : Str) (w : Nat) : Prop :=
  ValidStr s ∧ (utf8Encode s).length ≤ w ∧ s.getLast? ≠ some 0x20

instance (s : Str) (w : Nat) : Decidable (StrFits s w) := by unfold StrFits; infer_instance

/-- Source `struct.calcsize('<10s10s20s30sId10s3s')`: no padding under `<`. -/
def CAR_RECORD_SIZE : Nat := 95

/-- Source `struct.calcsize('<10s50s13s15s50s')`. -/
def CUST_RECORD_SIZE : Nat := 138

/-- Source `struct.calcsize('<10s10s10s10s10sd10s')`. -/
def CONTRACT_RECORD_SIZE : Nat := 68

/-- The `Car` model: strings as code-point lists, `year` a machine integer,
`price_per_day` the 64-bit pattern of the stored double. -/
structure Car where
  car_id : Str
  plate : Str
  brand : Str
  model : Str
  year : Nat
  price_per_day : Nat
  status : Str
  rented : Str
deriving DecidableEq, Repr

/-- Source `Car.pack`: `struct.pack(CAR_STRUCT_FMT, fixed_bytes(...), ..., year, price, ...)`. -/
def Car.pack (c : Car) : List Nat :=
  fixed_bytes c.car_id 10 ++ (fixed_bytes c.plate 10 ++ (fixed_bytes c.brand 20 ++
    (fixed_bytes c.model 30 ++ (natToLE 4 c.year ++ (natToLE 8 c.price_per_day ++
      (fixed_bytes c.status 10 ++ fixed_bytes c.rented 3))))))

/-- Source `Car.unpack`: `struct.unpack` slices the 95-byte block at the field
offsets, then each text field goes through `bytes_to_str`. -/
def Car.unpack (b : List Nat) : Car where
  car_id := bytes_to_str (b.take 10)
  plate := bytes_to_str ((b.drop 10).take 10)
  brand := bytes_to_str ((b.drop 20).take 20)
  model := bytes_to_str ((b.drop 40).take 30)
  year := leToNat ((b.drop 70).take 4)
  price_per_day := leToNat ((b.drop 74).take 8)
  status := bytes_to_str ((b.drop 82).take 10)
  rented := bytes_to_str ((b.drop 92).take 3)

theorem length_fixed_bytes (s : Str) (w : Nat) : (fixed_bytes s w).length = w := by
  unfold fixed_bytes
  dsimp only
  simp only [List.length_append, List.length_replicate, List.length_take]
  omega

theorem length_Car_pack (c : Car) : (Car.pack c).length = CAR_RECORD_SIZE := by
  simp [Car.pack, CAR_RECORD_SIZE, length_fixed_bytes, length_natToLE]

theorem car_unpack_pack (c : Car) (h1 : StrFits c.car_id 10) (h2 : StrFits c.plate 10)
    (h3 : StrFits c.brand 20) (h4 : StrFits c.model 30) (hy : c.year < 2 ^ 32)
    (hp : c.price_per_day < 2 ^ 64) (h5 : StrFits c.status 10) (h6 : StrFits c.rented 3) :
    Car.unpack (Car.pack c) = c := by
  obtain ⟨cid, cpl, cbr, cmo, cy, cp, cst, cre⟩ := c
  obtain ⟨v1, l1, n1⟩ := h1
  obtain ⟨v2, l2, n2⟩ := h2
  obtain ⟨v3, l3, n3⟩ := h3
  obtain ⟨v4, l4, n4⟩ := h4
  obtain ⟨v5, l5, n5⟩ := h5
  obtain ⟨v6, l6, n6⟩ := h6
  have hd10 : (Car.pack ⟨cid, cpl, cbr, cmo, cy, cp, cst, cre⟩).drop 10 =
      fixed_bytes cpl 10 ++ (fixed_bytes cbr 20 ++ (fixed_bytes cmo 30 ++ (natToLE 4 cy ++
        (natToLE 8 cp ++ (fixed_bytes cst 10 ++ fixed_bytes cre 3))))) :=
    List.drop_left' (length_fixed_bytes _ _)
  have hd20 : (Car.pack ⟨cid, cpl, cbr, cmo, cy, cp, cst, cre⟩).drop 20 =
      fixed_bytes cbr 20 ++ (fixed_bytes cmo 30 ++ (natToLE 4 cy ++
        (natToLE 8 cp ++ (fixed_bytes cst 10 ++ fixed_bytes cre 3)))) := by
    have e : (Car.pack ⟨cid, cpl, cbr, cmo, cy, cp, cst, cre⟩).drop 20 =
        ((Car.pack ⟨cid, cpl, cbr, cmo, cy, cp, cst, cre⟩).drop 10).drop 10 := by
      rw [List.drop_drop]
    rw [e, hd10]
    exact List.drop_left' (length_fixed_bytes _ _)
  have hd40 : (Car.pack ⟨cid, cpl, cbr, cmo, cy, cp, cst, cre⟩).drop 40 =
      fixed_bytes cmo 30 ++ (natToLE 4 cy ++
        (natToLE 8 cp ++ (fixed_bytes cst 10 ++ fixed_bytes cre 3))) := by
    have e : (Car.pack ⟨cid, cpl, cbr, cmo, cy, cp, cst, cre⟩).drop 40 =
        ((Car.pack ⟨cid, cpl, cbr, cmo, cy, cp, cst, cre⟩).drop 20).drop 20 := by
      rw [List.drop_drop]
    rw [e, hd20]
    exact List.drop_left' (length_fixed_bytes _ _)
  have hd70 : (Car.pack ⟨cid, cpl, cbr, cmo, cy, cp, cst, cre⟩).drop 70 =
      natToLE 4 cy ++ (natToLE 8 cp ++ (fixed_bytes cst 10 ++ fixed_bytes cre 3)) := by
    have e : (Car.pack ⟨cid, cpl, cbr, cmo, cy, cp, cst, cre⟩).drop 70 =
        ((Car.pack ⟨cid, cpl, cbr, cmo, cy, cp, cst, cre⟩).drop 40).drop 30 := by
      rw [List.drop_drop]
    rw [e, hd40]
    exact List.drop_left' (length_fixed_bytes _ _)
  have hd74 : (Car.pack ⟨cid, cpl, cbr, cmo, cy, cp, cst, cre⟩).drop 74 =
      natToLE 8 cp ++ (fixed_bytes cst 10 ++ fixed_bytes cre 3) := by
    have e : (Car.pack ⟨cid, cpl, cbr, cmo, cy, cp, cst, cre⟩).drop 74 =
        ((Car.pack ⟨cid, cpl, cbr, cmo, cy, cp, cst, cre⟩).drop 70).drop 4 := by
      rw [List.drop_drop]
    rw [e, hd70]
    exact List.drop_left' (length_natToLE _ _)
  have hd82 : (Car.pack ⟨cid, cpl, cbr, cmo, cy, cp, cst, cre⟩).drop 82 =
      fixed_bytes cst 10 ++ fixed_bytes cre 3 := by
    have e : (Car.pack ⟨cid, cpl, cbr, cmo, cy, cp, cst, cre⟩).drop 82 =
        ((Car.pack ⟨cid, cpl, cbr, cmo, cy, cp, cst, cre⟩).drop 74).drop 8 := by
      rw [List.drop_drop]
    rw [e, hd74]
    exact List.drop_left' (length_natToLE _ _)
  have hd92 : (Car.pack ⟨cid, cpl, cbr, cmo, cy, cp, cst, cre⟩).drop 92 =
      fixed_bytes cre 3 := by
    have e : (Car.pack ⟨cid, cpl, cbr, cmo, cy, cp, cst, cre⟩).drop 92 =
        ((Car.pack ⟨cid, cpl, cbr, cmo, cy, cp, cst, cre⟩).drop 82).drop 10 := by
      rw [List.drop_drop]
    rw [e, hd82]
    exact List.drop_left' (length_fixed_bytes _ _)
  show Car.mk _ _ _ _ _ _ _ _ = _
  simp only [Car.mk.injEq]
  refine ⟨?_, ?_, ?_, ?_, ?_, ?_, ?_, ?_⟩
  · show bytes_to_str ((Car.pack ⟨cid, cpl, cbr, cmo, cy, cp, cst, cre⟩).take 10) = cid
    rw [show (Car.pack ⟨cid, cpl, cbr, cmo, cy, cp, cst, cre⟩).take 10 = fixed_bytes cid 10 from
      List.take_left' (length_fixed_bytes _ _)]
    exact bytes_to_str_fixed_bytes v1 l1 n1
  · show bytes_to_str (((Car.pack ⟨cid, cpl, cbr, cmo, cy, cp, cst, cre⟩).drop 10).take 10) = cpl
    rw [hd10, List.take_left' (length_fixed_bytes _ _)]
    exact bytes_to_str_fixed_bytes v2 l2 n2
  · show bytes_to_str (((Car.pack ⟨cid, cpl, cbr, cmo, cy, cp, cst, cre⟩).drop 20).take 20) = cbr
    rw [hd20, List.take_left' (length_fixed_bytes _ _)]
    exact bytes_to_str_fixed_bytes v3 l3 n3
  · show bytes_to_str (((Car.pack ⟨cid, cpl, cbr, cmo, cy, cp, cst, cre⟩).drop 40).take 30) = cmo
    rw [hd40, List.take_left' (length_fixed_bytes _ _)]
    exact bytes_to_str_fixed_bytes v4 l4 n4
  · show leToNat (((Car.pack ⟨cid, cpl, cbr, cmo, cy, cp, cst, cre⟩).drop 70).take 4) = cy
    rw [hd70, List.take_left' (length_natToLE _ _), leToNat_natToLE]
    have : (256 : Nat) ^ 4 = 2 ^ 32 := by norm_num
    rw [this]
    exact Nat.mod_eq_of_lt hy
  · show leToNat (((Car.pack ⟨cid, cpl, cbr, cmo, cy, cp, cst, cre⟩).drop 74).take 8) = cp
    rw [hd74, List.take_left' (length_natToLE _ _), leToNat_natToLE]
    have : (256 : Nat) ^ 8 = 2 ^ 64 := by norm_num
    rw [this]
    exact Nat.mod_eq_of_lt hp
  · show bytes_to_str (((Car.pack ⟨cid, cpl, cbr, cmo, cy, cp, cst, cre⟩).drop 82).take 10) = cst
    rw [hd82, List.take_left' (length_fixed_bytes _ _)]
    exact bytes_to_str_fixed_bytes v5 l5 n5
  · show bytes_to_str (((Car.pack ⟨cid, cpl, cbr, cmo, cy, cp, cst, cre⟩).drop 92).take 3) = cre
    rw [hd92, List.take_of_length_le (by rw [length_fixed_bytes])]
    exact bytes_to_str_fixed_bytes v6 l6 n6

/-- The `Customer` model. -/
structure Customer where
  cust_id : Str
  name : Str
  id_card : Str
  phone : Str
  email : Str
deriving DecidableEq, Repr

/-- Source `Customer.pack`: `struct.pack('<10s50s13s15s50s', ...)`. -/
def Customer.pack (c : Customer) : List Nat :=
  fixed_bytes c.cust_id 10 ++ (fixed_bytes c.name 50 ++ (fixed_bytes c.id_card 13 ++
    (fixed_bytes c.phone 15 ++ fixed_bytes c.email 50)))

/-- Source `Customer.unpack`: slices of the 138-byte block at the field offsets. -/
def Customer.unpack (b : List Nat) : Customer where
  cust_id := bytes_to_str (b.take 10)
  name := bytes_to_str ((b.drop 10).take 50)
  id_card := bytes_to_str ((b.drop 60).take 13)
  phone := bytes_to_str ((b.drop 73).take 15)
  email := bytes_to_str ((b.drop 88).take 50)

theorem length_Customer_pack (c : Customer) : (Customer.pack c).length = CUST_RECORD_SIZE := by
  simp [Customer.pack, CUST_RECORD_SIZE, length_fixed_bytes]

theorem customer_unpack_pack (c : Customer) (h1 : StrFits c.cust_id 10) (h2 : StrFits c.name 50)
    (h3 : StrFits c.id_card 13) (h4 : StrFits c.phone 15) (h5 : StrFits c.email 50) :
    Customer.unpack (Customer.pack c) = c := by
  obtain ⟨cid, cna, cic, cph, cem⟩ := c
  obtain ⟨v1, l1, n1⟩ := h1
  obtain ⟨v2, l2, n2⟩ := h2
  obtain ⟨v3, l3, n3⟩ := h3
  obtain ⟨v4, l4, n4⟩ := h4
  obtain ⟨v5, l5, n5⟩ := h5
  have hd10 : (Customer.pack ⟨cid, cna, cic, cph, cem⟩).drop 10 =
      fixed_bytes cna 50 ++ (fixed_bytes cic 13 ++ (fixed_bytes cph 15 ++ fixed_bytes cem 50)) :=
    List.drop_left' (length_fixed_bytes _ _)
  have hd60 : (Customer.pack ⟨cid, cna, cic, cph, cem⟩).drop 60 =
      fixed_bytes cic 13 ++ (fixed_bytes cph 15 ++ fixed_bytes cem 50) := by
    have e : (Customer.pack ⟨cid, cna, cic, cph, cem⟩).drop 60 =
        ((Customer.pack ⟨cid, cna, cic, cph, cem⟩).drop 10).drop 50 := by
      rw [List.drop_drop]
    rw [e, hd10]
    exact List.drop_left' (length_fixed_bytes _ _)
  have hd73 : (Customer.pack ⟨cid, cna, cic, cph, cem⟩).drop 73 =
      fixed_bytes cph 15 ++ fixed_bytes cem 50 := by
    have e : (Customer.pack ⟨cid, cna, cic, cph, cem⟩).drop 73 =
        ((Customer.pack ⟨cid, cna, cic, cph, cem⟩).drop 60).drop 13 := by
      rw [List.drop_drop]
    rw [e, hd60]
    exact List.drop_left' (length_fixed_bytes _ _)
  have hd88 : (Customer.pack ⟨cid, cna, cic, cph, cem⟩).drop 88 = fixed_bytes cem 50 := by
    have e : (Customer.pack ⟨cid, cna, cic, cph, cem⟩).drop 88 =
        ((Customer.pack ⟨cid, cna, cic, cph, cem⟩).drop 73).drop 15 := by
      rw [List.drop_drop]
    rw [e, hd73]
    exact List.drop_left' (length_fixed_bytes _ _)
  show Customer.mk _ _ _ _ _ = _
  simp only [Customer.mk.injEq]
  refine ⟨?_, ?_, ?_, ?_, ?_⟩
  · show bytes_to_str ((Customer.pack ⟨cid, cna, cic, cph, cem⟩).take 10) = cid
    rw [show (Customer.pack ⟨cid, cna, cic, cph, cem⟩).take 10 = fixed_bytes cid 10 from
      List.take_left' (length_fixed_bytes _ _)]
    exact bytes_to_str_fixed_bytes v1 l1 n1
  · show bytes_to_str (((Customer.pack ⟨cid, cna, cic, cph, cem⟩).drop 10).take 50) = cna
    rw [hd10, List.take_left' (length_fixed_bytes _ _)]
    exact bytes_to_str_fixed_bytes v2 l2 n2
  · show bytes_to_str (((Customer.pack ⟨cid, cna, cic, cph, cem⟩).drop 60).take 13) = cic
    rw [hd60, List.take_left' (length_fixed_bytes _ _)]
    exact bytes_to_str_fixed_bytes v3 l3 n3
  · show bytes_to_str (((Customer.pack ⟨cid, cna, cic, cph, cem⟩).drop 73).take 15) = cph
    rw [hd73, List.take_left' (length_fixed_bytes _ _)]
    exact bytes_to_str_fixed_bytes v4 l4 n4
  · show bytes_to_str (((Customer.pack ⟨cid, cna, cic, cph, cem⟩).drop 88).take 50) = cem
    rw [hd88, List.take_of_length_le (by rw [length_fixed_bytes])]
    exact bytes_to_str_fixed_bytes v5 l5 n5

/-- The `Contract` model; `total_cost` is the 64-bit pattern of the stored double. -/
structure Contract where
  contract_id : Str
  car_id : Str
  cust_id : Str
  start_date : Str
  end_date : Str
  total_cost : Nat
  status : Str
deriving DecidableEq, Repr

/-- Source `Contract.pack`: `struct.pack('<10s10s10s10s10sd10s', ...)`. -/
def Contract.pack (c : Contract) : List Nat :=
  fixed_bytes c.contract_id 10 ++ (fixed_bytes c.car_id 10 ++ (fixed_bytes c.cust_id 10 ++
    (fixed_bytes c.start_date 10 ++ (fixed_bytes c.end_date 10 ++
      (natToLE 8 c.total_cost ++ fixed_bytes c.status 10)))))

/-- Source `Contract.unpack`: slices of the 68-byte block at the field offsets. -/
def Contract.unpack (b : List Nat) : Contract where
  contract_id := bytes_to_str (b.take 10)
  car_id := bytes_to_str ((b.drop 10).take 10)
  cust_id := bytes_to_str ((b.drop 20).take 10)
  start_date := bytes_to_str ((b.drop 30).take 10)
  end_date := bytes_to_str ((b.drop 40).take 10)
  total_cost := leToNat ((b.drop 50).take 8)
  status := bytes_to_str ((b.drop 58).take 10)

theorem length_Contract_pack (c : Contract) :
    (Contract.pack c).length = CONTRACT_RECORD_SIZE := by
  simp [Contract.pack, CONTRACT_RECORD_SIZE, length_fixed_bytes, length_natToLE]

theorem contract_unpack_pack (c : Contract) (h1 : StrFits c.contract_id 10)
    (h2 : StrFits c.car_id 10) (h3 : StrFits c.cust_id 10) (h4 : StrFits c.start_date 10)
    (h5 : StrFits c.end_date 10) (hc : c.total_cost < 2 ^ 64) (h6 : StrFits c.status 10) :
    Contract.unpack (Contract.pack c) = c := by
  obtain ⟨cid, cca, ccu, csd, ced, cco, cst⟩ := c
  obtain ⟨v1, l1, n1⟩ := h1
  obtain ⟨v2, l2, n2⟩ := h2
  obtain ⟨v3, l3, n3⟩ := h3
  obtain ⟨v4, l4, n4⟩ := h4
  obtain ⟨v5, l5, n5⟩ := h5
  obtain ⟨v6, l6, n6⟩ := h6
  have hd10 : (Contract.pack ⟨cid, cca, ccu, csd, ced, cco, cst⟩).drop 10 =
      fixed_bytes cca 10 ++ (fixed_bytes ccu 10 ++ (fixed_bytes csd 10 ++
        (fixed_bytes ced 10 ++ (natToLE 8 cco ++ fixed_bytes cst 10)))) :=
    List.drop_left' (length_fixed_bytes _ _)
  have hd20 : (Contract.pack ⟨cid, cca, ccu, csd, ced, cco, cst⟩).drop 20 =
      fixed_bytes ccu 10 ++ (fixed_bytes csd 10 ++
        (fixed_bytes ced 10 ++ (natToLE 8 cco ++ fixed_bytes cst 10))) := by
    have e : (Contract.pack ⟨cid, cca, ccu, csd, ced, cco, cst⟩).drop 20 =
        ((Contract.pack ⟨cid, cca, ccu, csd, ced, cco, cst⟩).drop 10).drop 10 := by
      rw [List.drop_drop]
    rw [e, hd10]
    exact List.drop_left' (length_fixed_bytes _ _)
  have hd30 : (Contract.pack ⟨cid, cca, ccu, csd, ced, cco, cst⟩).drop 30 =
      fixed_bytes csd 10 ++ (fixed_bytes ced 10 ++ (natToLE 8 cco ++ fixed_bytes cst 10)) := by
    have e : (Contract.pack ⟨cid, cca, ccu, csd, ced, cco, cst⟩).drop 30 =
        ((Contract.pack ⟨cid, cca, ccu, csd, ced, cco, cst⟩).drop 20).drop 10 := by
      rw [List.drop_drop]
    rw [e, hd20]
    exact List.drop_left' (length_fixed_bytes _ _)
  have hd40 : (Contract.pack ⟨cid, cca, ccu, csd, ced, cco, cst⟩).drop 40 =
      fixed_bytes ced 10 ++ (natToLE 8 cco ++ fixed_bytes cst 10) := by
    have e : (Contract.pack ⟨cid, cca, ccu, csd, ced, cco, cst⟩).drop 40 =
        ((Contract.pack ⟨cid, cca, ccu, csd, ced, cco, cst⟩).drop 30).drop 10 := by
      rw [List.drop_drop]
    rw [e, hd30]
    exact List.drop_left' (length_fixed_bytes _ _)
  have hd50 : (Contract.pack ⟨cid, cca, ccu, csd, ced, cco, cst⟩).drop 50 =
      natToLE 8 cco ++ fixed_bytes cst 10 := by
    have e : (Contract.pack ⟨cid, cca, ccu, csd, ced, cco, cst⟩).drop 50 =
        ((Contract.pack ⟨cid, cca, ccu, csd, ced, cco, cst⟩).drop 40).drop 10 := by
      rw [List.drop_drop]
    rw [e, hd40]
    exact List.drop_left' (length_fixed_bytes _ _)
  have hd58 : (Contract.pack ⟨cid, cca, ccu, csd, ced, cco, cst⟩).drop 58 =
      fixed_bytes cst 10 := by
    have e : (Contract.pack ⟨cid, cca, ccu, csd, ced, cco, cst⟩).drop 58 =
        ((Contract.pack ⟨cid, cca, ccu, csd, ced, cco, cst⟩).drop 50).drop 8 := by
      rw [List.drop_drop]
    rw [e, hd50]
    exact List.drop_left' (length_natToLE _ _)
  show Contract.mk _ _ _ _ _ _ _ = _
  simp only [Contract.mk.injEq]
  refine ⟨?_, ?_, ?_, ?_, ?_, ?_, ?_⟩
  · show bytes_to_str ((Contract.pack ⟨cid, cca, ccu, csd, ced, cco, cst⟩).take 10) = cid
    rw [show (Contract.pack ⟨cid, cca, ccu, csd, ced, cco, cst⟩).take 10 =
      fixed_bytes cid 10 from List.take_left' (length_fixed_bytes _ _)]
    exact bytes_to_str_fixed_bytes v1 l1 n1
  · show bytes_to_str (((Contract.pack ⟨cid, cca, ccu, csd, ced, cco, cst⟩).drop 10).take 10) = cca
    rw [hd10, List.take_left' (length_fixed_bytes _ _)]
    exact bytes_to_str_fixed_bytes v2 l2 n2
  · show bytes_to_str (((Contract.pack ⟨cid, cca, ccu, csd, ced, cco, cst⟩).drop 20).take 10) = ccu
    rw [hd20, List.take_left' (length_fixed_bytes _ _)]
    exact bytes_to_str_fixed_bytes v3 l3 n3
  · show bytes_to_str (((Contract.pack ⟨cid, cca, ccu, csd, ced, cco, cst⟩).drop 30).take 10) = csd
    rw [hd30, List.take_left' (length_fixed_bytes _ _)]
    exact bytes_to_str_fixed_bytes v4 l4 n4
  · show bytes_to_str (((Contract.pack ⟨cid, cca, ccu, csd, ced, cco, cst⟩).drop 40).take 10) = ced
    rw [hd40, List.take_left' (length_fixed_bytes _ _)]
    exact bytes_to_str_fixed_bytes v5 l5 n5
  · show leToNat (((Contract.pack ⟨cid, cca, ccu, csd, ced, cco, cst⟩).drop 50).take 8) = cco
    rw [hd50, List.take_left' (length_natToLE _ _), leToNat_natToLE]
    have : (256 : Nat) ^ 8 = 2 ^ 64 := by norm_num
    rw [this]
    exact Nat.mod_eq_of_lt hc
  · show bytes_to_str (((Contract.pack ⟨cid, cca, ccu, csd, ced, cco, cst⟩).drop 58).take 10) = cst
    rw [hd58, List.take_of_length_le (by rw [length_fixed_bytes])]
    exact bytes_to_str_fixed_bytes v6 l6 n6

/-! ## The flat-file record store -/

/-- Source `BinaryRepository.iterate_raw`: read the file in strides of `R` bytes,
breaking at the first position where fewer than `R` bytes remain (a trailing
partial block is silently dropped; `R = 0` reads nothing, as `f.read(0)` is
falsy).  `fuel` bounds the recursion; each step consumes `R ≥ 1` bytes, so
`fuel = l.length` is always enough. -/
def chunksAux (R : Nat) : Nat → List Nat → List (List Nat)
  | 0, _ => []
  | fuel + 1, l =>
    if R ≤ l.length ∧ 1 ≤ R then l.take R :: chunksAux R fuel (l.drop R) else []

/-- Source `read_all_raw` / `list(iterate_raw())`: the file's full blocks in order. -/
def chunks (R : Nat) (l : List Nat) : List (List Nat) := chunksAux R l.length l

theorem chunksAux_fuel (R : Nat) :
    ∀ (f1 f2 : Nat) (l : List Nat), l.length ≤ f1 → l.length ≤ f2 →
      chunksAux R f1 l = chunksAux R f2 l := by
  intro f1
  induction f1 with
  | zero =>
    intro f2 l h1 h2
    have : l = [] := List.eq_nil_of_length_eq_zero (by omega)
    subst this
    cases f2 with
    | zero => rfl
    | succ k =>
      rw [chunksAux, chunksAux, if_neg]
      simp only [List.length_nil]
      omega
  | succ m ih =>
    intro f2 l h1 h2
    cases f2 with
    | zero =>
      have : l = [] := List.eq_nil_of_length_eq_zero (by omega)
      subst this
      rw [chunksAux, chunksAux, if_neg]
      simp only [List.length_nil]
      omega
    | succ k =>
      rw [chunksAux, chunksAux]
      by_cases hc : R ≤ l.length ∧ 1 ≤ R
      · rw [if_pos hc, if_pos hc,
          ih k (l.drop R) (by simp only [List.length_drop]; omega)
            (by simp only [List.length_drop]; omega)]
      · rw [if_neg hc, if_neg hc]

theorem chunks_nil_of_lt {R : Nat} {l : List Nat} (h : l.length < R) : chunks R l = [] := by
  unfold chunks
  cases hl : l.length with
  | zero => rfl
  | succ m =>
    rw [chunksAux, if_neg]
    omega

theorem chunks_nil (R : Nat) : chunks R [] = [] := rfl

theorem chunks_cons {R : Nat} (hR : 1 ≤ R) {b : List Nat} (l : List Nat) (hb : b.length = R) :
    chunks R (b ++ l) = b :: chunks R l := by
  unfold chunks
  rw [List.length_append, hb,
    show R + l.length = (R - 1 + l.length) + 1 by omega, chunksAux,
    if_pos (by rw [List.length_append, hb]; omega),
    List.take_left' hb, List.drop_left' hb]
  rw [chunksAux_fuel R (R - 1 + l.length) l.length l (by omega) (le_refl _)]

theorem chunks_flatten {R : Nat} (hR : 1 ≤ R) (bs : List (List Nat))
    (h : ∀ b ∈ bs, b.length = R) : chunks R bs.flatten = bs := by
  induction bs with
  | nil => rfl
  | cons b rest ih =>
    rw [List.flatten_cons, chunks_cons hR _ (h b (List.mem_cons_self _ _)),
      ih (fun x hx => h x (List.mem_cons_of_mem _ hx))]

theorem length_of_mem_chunksAux {R : Nat} (b : List Nat) :
    ∀ (fuel : Nat) (l : List Nat), b ∈ chunksAux R fuel l → b.length = R := by
  intro fuel
  induction fuel with
  | zero => intro l hb; simp [chunksAux] at hb
  | succ m ih =>
    intro l hb
    rw [chunksAux] at hb
    by_cases hc : R ≤ l.length ∧ 1 ≤ R
    · rw [if_pos hc] at hb
      rcases List.mem_cons.mp hb with he | ht
      · subst he
        simp only [List.length_take]
        omega
      · exact ih _ ht
    · rw [if_neg hc] at hb
      simp at hb

theorem length_of_mem_chunks {R : Nat} {l b : List Nat} (hb : b ∈ chunks R l) :
    b.length = R :=
  length_of_mem_chunksAux b l.length l hb

/-! ## Entity repositories over a byte-level file -/

/-- Source `CarRepository.all()`: decode every raw block. -/
def carAll (file : List Nat) : List Car := (chunks CAR_RECORD_SIZE file).map Car.unpack

/-- Source `CarRepository.find(car_id)`: first decoded car with that id, else `None`. -/
def carFind (car_id : Str) (file : List Nat) : Option Car :=
  (carAll file).find? (fun c => c.car_id == car_id)

/-- Source `CarRepository.add(car)`: refuse on a duplicate id (a found `Car` object is
always truthy), else append the packed record.  Returns the Python result
paired with the file content afterwards. -/
def carAdd (car : Car) (file : List Nat) : Bool × List Nat :=
  if (carFind car.car_id file).isSome then (false, file) else (true, file ++ Car.pack car)

/-- Source `CarRepository.update(car_id, new_car)`: rebuild the block list with every
matching block replaced by `new_car.pack()`, then overwrite the whole file
if and only if some block matched. -/
def carUpdate (car_id : Str) (new_car : Car) (file : List Nat) : Bool × List Nat :=
  let raw := chunks CAR_RECORD_SIZE file
  let changed := raw.any (fun b => (Car.unpack b).car_id == car_id)
  let out := raw.map (fun b => if (Car.unpack b).car_id == car_id then Car.pack new_car else b)
  if changed then (true, out.flatten) else (false, file)

/-- The string literal `'Deleted'`. -/
def strDeleted : Str := [68, 101, 108, 101, 116, 101, 100]

/-- Source `CarRepository.mark_deleted(car_id)`: like `update`, but the replacement
block is the matched block's decode re-packed with `status = 'Deleted'`. -/
def carMarkDeleted (car_id : Str) (file : List Nat) : Bool × List Nat :=
  let raw := chunks CAR_RECORD_SIZE file
  let changed := raw.any (fun b => (Car.unpack b).car_id == car_id)
  let out := raw.map (fun b =>
    if (Car.unpack b).car_id == car_id then Car.pack { Car.unpack b with status := strDeleted }
    else b)
  if changed then (true, out.flatten) else (false, file)

/-- Source `CustomerRepository.all()`. -/
def custAll (file : List Nat) : List Customer :=
  (chunks CUST_RECORD_SIZE file).map Customer.unpack

/-- Source `CustomerRepository.find(cust_id)`. -/
def custFind (cust_id : Str) (file : List Nat) : Option Customer :=
  (custAll file).find? (fun c => c.cust_id == cust_id)

/-- Source `CustomerRepository.add(cust)`. -/
def custAdd (cust : Customer) (file : List Nat) : Bool × List Nat :=
  if (custFind cust.cust_id file).isSome then (false, file)
  else (true, file ++ Customer.pack cust)

/-- Source `CustomerRepository.update(cust_id, new_cust)`. -/
def custUpdate (cust_id : Str) (new_cust : Customer) (file : List Nat) : Bool × List Nat :=
  let raw := chunks CUST_RECORD_SIZE file
  let changed := raw.any (fun b => (Customer.unpack b).cust_id == cust_id)
  let out := raw.map (fun b =>
    if (Customer.unpack b).cust_id == cust_id then Customer.pack new_cust else b)
  if changed then (true, out.flatten) else (false, file)

/-- Source `delete_customer(cid)` (menu operation): keep every raw block whose decoded
id differs, and overwrite the file with the kept blocks iff a match was found. -/
def delete_customer (cid : Str) (file : List Nat) : Bool × List Nat :=
  let raw := chunks CUST_RECORD_SIZE file
  let found := raw.any (fun b => (Customer.unpack b).cust_id == cid)
  let out := raw.filter (fun b => !((Customer.unpack b).cust_id == cid))
  if found then (true, out.flatten) else (false, file)

/-- Source `ContractRepository.all()`. -/
def contractAll (file : List Nat) : List Contract :=
  (chunks CONTRACT_RECORD_SIZE file).map Contract.unpack

/-- Source `ContractRepository.find(contract_id)`. -/
def contractFind (contract_id : Str) (file : List Nat) : Option Contract :=
  (contractAll file).find? (fun c => c.contract_id == contract_id)

/-- Source `ContractRepository.add(contract)`. -/
def contractAdd (contract : Contract) (file : List Nat) : Bool × List Nat :=
  if (contractFind contract.contract_id file).isSome then (false, file)
  else (true, file ++ Contract.pack contract)

/-- Source `ContractRepository.update(contract_id, new_contract)`. -/
def contractUpdate (contract_id : Str) (new_contract : Contract) (file : List Nat) :
    Bool × List Nat :=
  let raw := chunks CONTRACT_RECORD_SIZE file
  let changed := raw.any (fun b => (Contract.unpack b).contract_id == contract_id)
  let out := raw.map (fun b =>
    if (Contract.unpack b).contract_id == contract_id then Contract.pack new_contract else b)
  if changed then (true, out.flatten) else (false, file)

/-! ## Atomic full-file rewrite: `overwrite_all_raw` -/

/-- The byte-level state `overwrite_all_raw` can touch: the repository file and
the temporary file next to it. -/
structure FsState where
  main : List Nat
  tmp : List Nat
deriving DecidableEq, Repr

/-- The primitive filesystem steps of `overwrite_all_raw`. -/
inductive FsOp where
  | openTruncTmp : FsOp
  | writeTmp (r : List Nat) : FsOp
  | renameTmpToMain : FsOp
deriving DecidableEq, Repr

/-- Effect of one step: `open(tmp, 'wb')` truncates the temp file, each
`f.write(r)` appends to it, `os.replace(tmp, filename)` atomically installs the
temp file's content as the file's content. -/
def applyOp (st : FsState) : FsOp → FsState
  | FsOp.openTruncTmp => { st with tmp := [] }
  | FsOp.writeTmp r => { st with tmp := st.tmp ++ r }
  | FsOp.renameTmpToMain => { main := st.tmp, tmp := [] }

/-- Source `overwrite_all_raw(records)` as its ordered trace of filesystem steps. -/
def overwrite_all_raw (records : List (List Nat)) : List FsOp :=
  FsOp.openTruncTmp :: (records.map FsOp.writeTmp ++ [FsOp.renameTmpToMain])

/-- Execute a prefix of the trace from a starting state. -/
def runOps (st : FsState) (ops : List FsOp) : FsState := ops.foldl applyOp st

theorem runOps_writeTmp (rs : List (List Nat)) :
    ∀ st : FsState, runOps st (rs.map FsOp.writeTmp) =
      { main := st.main, tmp := st.tmp ++ rs.flatten } := by
  induction rs with
  | nil => intro st; simp [runOps]
  | cons r rest ih =>
    intro st
    rw [List.map_cons, runOps, List.foldl_cons]
    have h := ih (applyOp st (FsOp.writeTmp r))
    rw [runOps] at h
    rw [h]
    simp [applyOp, List.flatten_cons]

theorem runOps_main_of_no_rename :
    ∀ (ops : List FsOp) (st : FsState), FsOp.renameTmpToMain ∉ ops →
      (runOps st ops).main = st.main := by
  intro ops
  induction ops with
  | nil => intro st _; rfl
  | cons op rest ih =>
    intro st hmem
    rw [runOps, List.foldl_cons]
    have h1 : FsOp.renameTmpToMain ∉ rest := fun hr => hmem (List.mem_cons_of_mem _ hr)
    have h2 : op ≠ FsOp.renameTmpToMain := fun he => hmem (he ▸ List.mem_cons_self _ _)
    have := ih (applyOp st op) h1
    rw [runOps] at this
    rw [this]
    cases op with
    | openTruncTmp => rfl
    | writeTmp r => rfl
    | renameTmpToMain => exact absurd rfl h2

/-! ## Dates: `parse_date` and `date_diff_days` -/

/-- Leap year as `datetime` determines it. -/
def isLeap (y : Nat) : Prop := y % 4 = 0 ∧ (y % 100 ≠ 0 ∨ y % 400 = 0)

instance (y : Nat) : Decidable (isLeap y) := by unfold isLeap; infer_instance

/-- Source `_DAYS_IN_MONTH` of the `datetime` module (index 0 unused). -/
def daysInMonthTable : Nat → Nat
  | 1 => 31
  | 2 => 28
  | 3 => 31
  | 4 => 30
  | 5 => 31
  | 6 => 30
  | 7 => 31
  | 8 => 31
  | 9 => 30
  | 10 => 31
  | 11 => 30
  | 12 => 31
  | _ => 0

/-- Source `_days_in_month(year, month)`. -/
def daysInMonth (y m : Nat) : Nat :=
  if m = 2 ∧ isLeap y then 29 else daysInMonthTable m

/-- Source `_days_before_year(y)`: days before January 1st of year `y`. -/
def daysBeforeYear (y : Nat) : Nat :=
  (y - 1) * 365 + (y - 1) / 4 - (y - 1) / 100 + (y - 1) / 400

/-- Source `_days_before_month(y, m)`: days of year `y` preceding month `m`. -/
def daysBeforeMonth (y m : Nat) : Nat :=
  ((List.range (m - 1)).map (fun k => daysInMonth y (k + 1))).sum

/-- Source `date(y, m, d).toordinal()`: proleptic Gregorian ordinal. -/
def toordinal (y m d : Nat) : Nat := daysBeforeYear y + daysBeforeMonth y m + d

def isDigit (c : Nat) : Bool := decide (48 ≤ c) && decide (c ≤ 57)

/-- The strptime `%m` pattern `1[0-2]|0[1-9]|[1-9]` applied at the head of the
remaining characters (regex alternation order). -/
def parseMonthField : List Nat → Option (Nat × List Nat)
  | c1 :: c2 :: rest =>
    if c1 = 49 ∧ 48 ≤ c2 ∧ c2 ≤ 50 then some (10 + (c2 - 48), rest)
    else if c1 = 48 ∧ 49 ≤ c2 ∧ c2 ≤ 57 then some (c2 - 48, rest)
    else if 49 ≤ c1 ∧ c1 ≤ 57 then some (c1 - 48, c2 :: rest)
    else none
  | [c1] => if 49 ≤ c1 ∧ c1 ≤ 57 then some (c1 - 48, []) else none
  | [] => none

/-- The strptime `%d` pattern `3[01]|[12][0-9]|0[1-9]|[1-9]`. -/
def parseDayField : List Nat → Option (Nat × List Nat)
  | c1 :: c2 :: rest =>
    if c1 = 51 ∧ 48 ≤ c2 ∧ c2 ≤ 49 then some (30 + (c2 - 48), rest)
    else if (c1 = 49 ∨ c1 = 50) ∧ 48 ≤ c2 ∧ c2 ≤ 57 then
      some ((c1 - 48) * 10 + (c2 - 48), rest)
    else if c1 = 48 ∧ 49 ≤ c2 ∧ c2 ≤ 57 then some (c2 - 48, rest)
    else if 49 ≤ c1 ∧ c1 ≤ 57 then some (c1 - 48, c2 :: rest)
    else none
  | [c1] => if 49 ≤ c1 ∧ c1 ≤ 57 then some (c1 - 48, []) else none
  | [] => none

/-- Source `parse_date(s)`: `datetime.strptime(s, '%Y-%m-%d').date()`.  `%Y` is four
digits; the whole string must be consumed; `date(y, m, d)` then validates the
field ranges.  `none` models the raised `ValueError`. -/
def parse_date (s : Str) : Option (Nat × Nat × Nat) :=
  match s with
  | y1 :: y2 :: y3 :: y4 :: h1 :: rest1 =>
    if isDigit y1 ∧ isDigit y2 ∧ isDigit y3 ∧ isDigit y4 ∧ h1 = 45 then
      match parseMonthField rest1 with
      | some (m, h2 :: rest2) =>
        if h2 = 45 then
          match parseDayField rest2 with
          | some (d, []) =>
            let y := (y1 - 48) * 1000 + (y2 - 48) * 100 + (y3 - 48) * 10 + (y4 - 48)
            if 1 ≤ y ∧ 1 ≤ m ∧ m ≤ 12 ∧ 1 ≤ d ∧ d ≤ daysInMonth y m then some (y, m, d)
            else none
          | _ => none
        else none
      | _ => none
    else none
  | _ => none

/-- Source `date_diff_days(a, b)`: `max(0, (parse_date(b) - parse_date(a)).days + 1)`;
`none` models the `ValueError` raised on a malformed date. -/
def date_diff_days (a b : Str) : Option Int :=
  match parse_date a, parse_date b with
  | some (ya, ma, da), some (yb, mb, db) =>
    some (max 0 ((toordinal yb mb db : Int) - (toordinal ya ma da : Int) + 1))
  | _, _ => none

/-- Python `date` ordering, used to state that one date precedes another:
lexicographic on (year, month, day). -/
def dateLt (a b : Nat × Nat × Nat) : Prop :=
  a.1 < b.1 ∨ (a.1 = b.1 ∧ (a.2.1 < b.2.1 ∨ (a.2.1 = b.2.1 ∧ a.2.2 < b.2.2)))

instance (a b : Nat × Nat × Nat) : Decidable (dateLt a b) := by unfold dateLt; infer_instance

/-- Source `est_cost = dcount * car.price_per_day` in `add_contract`.  The double
arithmetic is exact for integer-valued operands below 2^53, so it is modelled
in exact rational arithmetic. -/
def add_contract_est_cost (dcount : Int) (rate : ℚ) : ℚ := (dcount : ℚ) * rate

example : parse_date [50, 48, 50, 53, 45, 48, 57, 45, 50, 48] = some (2025, 9, 20) := by decide
example : parse_date [50, 48, 50, 53, 45, 49, 51, 45, 48, 49] = none := by decide
example : toordinal 2025 9 20 = 739514 := by decide

theorem daysBeforeMonth_succ (y m : Nat) :
    daysBeforeMonth y (m + 1) = daysBeforeMonth y m + daysInMonth y m := by
  cases m with
  | zero =>
    have h0 : daysInMonth y 0 = 0 := by
      rw [daysInMonth, if_neg (by simp)]
      rfl
    simp [daysBeforeMonth, h0]
  | succ k =>
    unfold daysBeforeMonth
    rw [show k + 1 + 1 - 1 = k + 1 by omega, show k + 1 - 1 = k by omega, List.range_succ]
    simp

theorem daysBeforeMonth_mono (y : Nat) {m1 m2 : Nat} (h : m1 ≤ m2) :
    daysBeforeMonth y m1 ≤ daysBeforeMonth y m2 := by
  induction m2 with
  | zero =>
    have : m1 = 0 := by omega
    subst this
    exact le_refl _
  | succ k ih =>
    rcases Nat.lt_or_ge m1 (k + 1) with hlt | hge
    · have := ih (by omega)
      rw [daysBeforeMonth_succ]
      omega
    · have : m1 = k + 1 := by omega
      subst this
      exact le_refl _

theorem daysBeforeMonth_thirteen (y : Nat) :
    daysBeforeMonth y 13 = 365 + (if isLeap y then 1 else 0) := by
  unfold daysBeforeMonth
  rw [show (13 : Nat) - 1 = 12 from rfl,
    show List.range 12 = [0, 1, 2, 3, 4, 5, 6, 7, 8, 9, 10, 11] from rfl]
  by_cases hl : isLeap y
  · simp [daysInMonth, daysInMonthTable, hl]
  · simp [daysInMonth, daysInMonthTable, hl]

theorem within_year_bound (y m d : Nat) (hm : m ≤ 12) (hd : d ≤ daysInMonth y m) :
    daysBeforeMonth y m + d ≤ 365 + (if isLeap y then 1 else 0) := by
  have h1 : daysBeforeMonth y m + d ≤ daysBeforeMonth y (m + 1) := by
    rw [daysBeforeMonth_succ]
    omega
  have h2 : daysBeforeMonth y (m + 1) ≤ daysBeforeMonth y 13 := daysBeforeMonth_mono y (by omega)
  rw [daysBeforeMonth_thirteen] at h2
  omega

set_option maxHeartbeats 1000000 in
theorem daysBeforeYear_succ (y : Nat) (hy : 1 ≤ y) :
    daysBeforeYear (y + 1) = daysBeforeYear y + 365 + (if isLeap y then 1 else 0) := by
  unfold daysBeforeYear
  rw [show y + 1 - 1 = y by omega]
  by_cases hl : isLeap y
  · rw [if_pos hl]
    unfold isLeap at hl
    omega
  · rw [if_neg hl]
    unfold isLeap at hl
    omega

theorem daysBeforeYear_mono {y1 y2 : Nat} (h1 : 1 ≤ y1) (h : y1 ≤ y2) :
    daysBeforeYear y1 ≤ daysBeforeYear y2 := by
  induction y2 with
  | zero => omega
  | succ k ih =>
    rcases Nat.lt_or_ge y1 (k + 1) with hlt | hge
    · have hk : 1 ≤ k := by omega
      have := ih (by omega)
      rw [daysBeforeYear_succ k hk]
      omega
    · have : y1 = k + 1 := by omega
      subst this
      exact le_refl _

/-- Strict monotonicity of `toordinal` over valid dates in calendar order. -/
theorem toordinal_lt_of_dateLt {y1 m1 d1 y2 m2 d2 : Nat}
    (hy1 : 1 ≤ y1) (_hm1 : 1 ≤ m1) (hm1u : m1 ≤ 12) (_hd1 : 1 ≤ d1)
    (hd1u : d1 ≤ daysInMonth y1 m1)
    (hy2 : 1 ≤ y2) (hm2 : 1 ≤ m2) (hm2u : m2 ≤ 12) (hd2 : 1 ≤ d2)
    (hlt : dateLt (y1, m1, d1) (y2, m2, d2)) :
    toordinal y1 m1 d1 < toordinal y2 m2 d2 := by
  unfold toordinal
  rcases hlt with hy | ⟨hye, hm | ⟨hme, hd⟩⟩
  · simp only at hy
    have hwy : daysBeforeMonth y1 m1 + d1 ≤ 365 + (if isLeap y1 then 1 else 0) :=
      within_year_bound y1 m1 d1 hm1u hd1u
    have hstep : daysBeforeYear (y1 + 1) =
        daysBeforeYear y1 + 365 + (if isLeap y1 then 1 else 0) := daysBeforeYear_succ y1 hy1
    have hmono : daysBeforeYear (y1 + 1) ≤ daysBeforeYear y2 := daysBeforeYear_mono (by omega) hy
    have hnn : 0 ≤ daysBeforeMonth y2 m2 := Nat.zero_le _
    omega
  · simp only at hye hm
    subst hye
    have h1 : daysBeforeMonth y1 m1 + d1 ≤ daysBeforeMonth y1 (m1 + 1) := by
      rw [daysBeforeMonth_succ]
      omega
    have h2 : daysBeforeMonth y1 (m1 + 1) ≤ daysBeforeMonth y1 m2 :=
      daysBeforeMonth_mono y1 (by omega)
    omega
  · simp only at hye hme hd
    subst hye
    subst hme
    omega

theorem parse_date_valid {s : Str} {y m d : Nat} (h : parse_date s = some (y, m, d)) :
    1 ≤ y ∧ 1 ≤ m ∧ m ≤ 12 ∧ 1 ≤ d ∧ d ≤ daysInMonth y m := by
  unfold parse_date at h
  rcases s with _ | ⟨y1, s⟩
  · simp at h
  rcases s with _ | ⟨y2, s⟩
  · simp at h
  rcases s with _ | ⟨y3, s⟩
  · simp at h
  rcases s with _ | ⟨y4, s⟩
  · simp at h
  rcases s with _ | ⟨h1, rest1⟩
  · simp at h
  dsimp only at h
  by_cases hc : isDigit y1 ∧ isDigit y2 ∧ isDigit y3 ∧ isDigit y4 ∧ h1 = 45
  case neg => rw [if_neg hc] at h; simp at h
  rw [if_pos hc] at h
  cases hm : parseMonthField rest1 with
  | none => rw [hm] at h; simp at h
  | some p =>
    rw [hm] at h
    obtain ⟨m', r⟩ := p
    rcases r with _ | ⟨h2, rest2⟩
    · simp at h
    dsimp only at h
    by_cases hh2 : h2 = 45
    case neg => rw [if_neg hh2] at h; simp at h
    rw [if_pos hh2] at h
    cases hd : parseDayField rest2 with
    | none => rw [hd] at h; simp at h
    | some q =>
      rw [hd] at h
      obtain ⟨d', r2⟩ := q
      rcases r2 with _ | ⟨x, r2⟩
      · dsimp only at h
        by_cases hfin : 1 ≤ (y1 - 48) * 1000 + (y2 - 48) * 100 + (y3 - 48) * 10 + (y4 - 48) ∧
            1 ≤ m' ∧ m' ≤ 12 ∧ 1 ≤ d' ∧
            d' ≤ daysInMonth ((y1 - 48) * 1000 + (y2 - 48) * 100 + (y3 - 48) * 10 + (y4 - 48)) m'
        · rw [if_pos hfin] at h
          simp only [Option.some.injEq, Prod.mk.injEq] at h
          obtain ⟨hy, hm2, hd2⟩ := h
          subst hy
          subst hm2
          subst hd2
          exact hfin
        · rw [if_neg hfin] at h
          simp at h
      · simp at h

/-! ## Claim theorems -/

/-- C2: for every store state and every entity whose identity already occurs in
the store, `add` returns `False` ("duplicate") and leaves the file — hence the
record sequence and its count — unchanged; no partial write occurs.  Stated for
all three repositories (`CarRepository.add`, `CustomerRepository.add`,
`ContractRepository.add`). -/
theorem c2_add_duplicate :
    (∀ (car : Car) (file : List Nat),
      (∃ c ∈ carAll file, c.car_id = car.car_id) → carAdd car file = (false, file)) ∧
    (∀ (cust : Customer) (file : List Nat),
      (∃ c ∈ custAll file, c.cust_id = cust.cust_id) → custAdd cust file = (false, file)) ∧
    (∀ (contract : Contract) (file : List Nat),
      (∃ c ∈ contractAll file, c.contract_id = contract.contract_id) →
        contractAdd contract file = (false, file)) := by
  refine ⟨?_, ?_, ?_⟩
  · intro car file hex
    obtain ⟨c, hc, hid⟩ := hex
    unfold carAdd
    rw [if_pos]
    rw [carFind, List.find?_isSome]
    exact ⟨c, hc, by simp [hid]⟩
  · intro cust file hex
    obtain ⟨c, hc, hid⟩ := hex
    unfold custAdd
    rw [if_pos]
    rw [custFind, List.find?_isSome]
    exact ⟨c, hc, by simp [hid]⟩
  · intro contract file hex
    obtain ⟨c, hc, hid⟩ := hex
    unfold contractAdd
    rw [if_pos]
    rw [contractFind, List.find?_isSome]
    exact ⟨c, hc, by simp [hid]⟩

/-- C3: on a store whose blocks contain exactly one record with the given id,
`update` succeeds and the new file decomposes into the same ordered block list
with the matching block replaced by `new_car.pack()` and every other block
byte-for-byte unchanged; in particular the record count is preserved. -/
theorem c3_update_frame (car_id : Str) (new_car : Car) (file : List Nat)
    (huniq : (chunks CAR_RECORD_SIZE file).countP
      (fun b => (Car.unpack b).car_id == car_id) = 1) :
    (carUpdate car_id new_car file).1 = true ∧
    chunks CAR_RECORD_SIZE (carUpdate car_id new_car file).2 =
      (chunks CAR_RECORD_SIZE file).map
        (fun b => if (Car.unpack b).car_id == car_id then Car.pack new_car else b) ∧
    (chunks CAR_RECORD_SIZE (carUpdate car_id new_car file).2).length =
      (chunks CAR_RECORD_SIZE file).length := by
  have hany : (chunks CAR_RECORD_SIZE file).any
      (fun b => (Car.unpack b).car_id == car_id) = true := by
    rw [List.any_eq_true]
    exact List.countP_pos_iff.mp (by omega)
  have hflat : chunks CAR_RECORD_SIZE
      (((chunks CAR_RECORD_SIZE file).map
        (fun b => if (Car.unpack b).car_id == car_id then Car.pack new_car else b)).flatten) =
      (chunks CAR_RECORD_SIZE file).map
        (fun b => if (Car.unpack b).car_id == car_id then Car.pack new_car else b) := by
    apply chunks_flatten (by rw [CAR_RECORD_SIZE]; omega)
    intro x hx
    rcases List.mem_map.mp hx with ⟨b, hb, he⟩
    by_cases hmatch : ((Car.unpack b).car_id == car_id) = true
    · rw [if_pos hmatch] at he
      rw [← he]
      exact length_Car_pack new_car
    · rw [if_neg hmatch] at he
      rw [← he]
      exact length_of_mem_chunks hb
  unfold carUpdate
  dsimp only
  rw [if_pos hany]
  exact ⟨rfl, hflat, by rw [hflat, List.length_map]⟩

/-- C7: when no record matches the id, `update` and `mark_deleted` return
`False` ("not found") and the file is byte-for-byte unchanged — the
`overwrite_all_raw` branch is never taken.  Stated for `CarRepository.update`,
`CarRepository.mark_deleted`, `CustomerRepository.update` and
`ContractRepository.update`. -/
theorem c7_not_found (id : Str) (new_car : Car) (new_cust : Customer)
    (new_contract : Contract) (file : List Nat) :
    ((∀ b ∈ chunks CAR_RECORD_SIZE file, ¬((Car.unpack b).car_id == id)) →
      carUpdate id new_car file = (false, file) ∧ carMarkDeleted id file = (false, file)) ∧
    ((∀ b ∈ chunks CUST_RECORD_SIZE file, ¬((Customer.unpack b).cust_id == id)) →
      custUpdate id new_cust file = (false, file)) ∧
    ((∀ b ∈ chunks CONTRACT_RECORD_SIZE file, ¬((Contract.unpack b).contract_id == id)) →
      contractUpdate id new_contract file = (false, file)) := by
  refine ⟨fun hnone => ⟨?_, ?_⟩, fun hnone => ?_, fun hnone => ?_⟩
  · unfold carUpdate
    dsimp only
    rw [if_neg (by rw [List.any_eq_false.mpr hnone]; simp)]
  · unfold carMarkDeleted
    dsimp only
    rw [if_neg (by rw [List.any_eq_false.mpr hnone]; simp)]
  · unfold custUpdate
    dsimp only
    rw [if_neg (by rw [List.any_eq_false.mpr hnone]; simp)]
  · unfold contractUpdate
    dsimp only
    rw [if_neg (by rw [List.any_eq_false.mpr hnone]; simp)]

/-- C5: hard delete of a customer id matching exactly one record keeps every
other block byte-for-byte, in order, and drops the count by one; hard delete of
an absent id returns "not found" and leaves the file unchanged. -/
theorem c5_hard_delete (cid : Str) (file : List Nat) :
    ((chunks CUST_RECORD_SIZE file).countP
        (fun b => (Customer.unpack b).cust_id == cid) = 1 →
      (delete_customer cid file).1 = true ∧
      chunks CUST_RECORD_SIZE (delete_customer cid file).2 =
        (chunks CUST_RECORD_SIZE file).filter
          (fun b => !((Customer.unpack b).cust_id == cid)) ∧
      (chunks CUST_RECORD_SIZE (delete_customer cid file).2).length + 1 =
        (chunks CUST_RECORD_SIZE file).length) ∧
    ((∀ b ∈ chunks CUST_RECORD_SIZE file, ¬((Customer.unpack b).cust_id == cid)) →
      delete_customer cid file = (false, file)) := by
  constructor
  · intro huniq
    have hany : (chunks CUST_RECORD_SIZE file).any
        (fun b => (Customer.unpack b).cust_id == cid) = true := by
      rw [List.any_eq_true]
      exact List.countP_pos_iff.mp (by omega)
    have hflat : chunks CUST_RECORD_SIZE
        (((chunks CUST_RECORD_SIZE file).filter
          (fun b => !((Customer.unpack b).cust_id == cid))).flatten) =
        (chunks CUST_RECORD_SIZE file).filter
          (fun b => !((Customer.unpack b).cust_id == cid)) := by
      apply chunks_flatten (by rw [CUST_RECORD_SIZE]; omega)
      intro x hx
      exact length_of_mem_chunks (List.mem_of_mem_filter hx)
    have hlen : ((chunks CUST_RECORD_SIZE file).filter
        (fun b => !((Customer.unpack b).cust_id == cid))).length + 1 =
        (chunks CUST_RECORD_SIZE file).length := by
      have h1 := (chunks CUST_RECORD_SIZE file).length_eq_length_filter_add
        (fun b => (Customer.unpack b).cust_id == cid)
      have h2 : ((chunks CUST_RECORD_SIZE file).filter
          (fun b => (Customer.unpack b).cust_id == cid)).length = 1 := by
        rw [← List.countP_eq_length_filter]
        exact huniq
      omega
    unfold delete_customer
    dsimp only
    rw [if_pos hany]
    exact ⟨rfl, hflat, by rw [hflat]; exact hlen⟩
  · intro hnone
    unfold delete_customer
    dsimp only
    rw [if_neg (by rw [List.any_eq_false.mpr hnone]; simp)]

/-- C4: the trace of `overwrite_all_raw(records)` ends in the atomic
`os.replace`; running the whole trace makes the file's content exactly the
given block sequence, while running any proper prefix (failure at any point
before the final rename) leaves the file's readable content byte-for-byte
equal to its pre-operation content. -/
theorem c4_replace_all_atomic (records : List (List Nat)) (st : FsState) (k : Nat)
    (hk : k < (overwrite_all_raw records).length) :
    (runOps st (overwrite_all_raw records)).main = records.flatten ∧
    (runOps st ((overwrite_all_raw records).take k)).main = st.main := by
  constructor
  · rw [overwrite_all_raw, runOps, List.foldl_cons, List.foldl_append]
    have h1 : applyOp st FsOp.openTruncTmp = { main := st.main, tmp := [] } := rfl
    rw [h1]
    have h2 := runOps_writeTmp records { main := st.main, tmp := [] }
    rw [runOps] at h2
    rw [h2]
    rfl
  · apply runOps_main_of_no_rename
    intro hmem
    rw [overwrite_all_raw] at hmem hk
    rcases k with _ | j
    · simp at hmem
    · rw [List.take_succ_cons] at hmem
      rcases List.mem_cons.mp hmem with he | ht
      · simp at he
      · have hj : j ≤ records.length := by
          simp only [List.length_cons, List.length_append, List.length_map,
            List.length_singleton, List.length_nil] at hk
          omega
        have htk : ((records.map FsOp.writeTmp ++ [FsOp.renameTmpToMain]).take j) =
            (records.map FsOp.writeTmp).take j :=
          List.take_append_of_le_length (by rw [List.length_map]; omega)
        rw [htk] at ht
        have hmm : FsOp.renameTmpToMain ∈ records.map FsOp.writeTmp :=
          List.take_subset j _ ht
        rcases List.mem_map.mp hmm with ⟨r, _, he⟩
        simp at he

/-- The decoded text fields that `mark_deleted` re-packs survive the re-encode
exactly when none of them ends in a space character (the status field is
overwritten, so it is exempt). -/
def CarStrsStable (c : Car) : Prop :=
  c.car_id.getLast? ≠ some 0x20 ∧ c.plate.getLast? ≠ some 0x20 ∧
    c.brand.getLast? ≠ some 0x20 ∧ c.model.getLast? ≠ some 0x20 ∧
    c.rented.getLast? ≠ some 0x20

instance (c : Car) : Decidable (CarStrsStable c) := by unfold CarStrsStable; infer_instance

theorem StrFits_bytes_to_str (b : List Nat) (w : Nat) (hlen : b.length ≤ w)
    (hlast : (bytes_to_str b).getLast? ≠ some 0x20) : StrFits (bytes_to_str b) w :=
  ⟨validStr_bytes_to_str b, le_trans (length_utf8Encode_bytes_to_str b) hlen, hlast⟩

theorem car_unpack_repack_deleted (b : List Nat) (hb : b.length = CAR_RECORD_SIZE)
    (hst : CarStrsStable (Car.unpack b)) :
    Car.unpack (Car.pack { Car.unpack b with status := strDeleted }) =
      { Car.unpack b with status := strDeleted } := by
  obtain ⟨s1, s2, s3, s4, s5⟩ := hst
  rw [CAR_RECORD_SIZE] at hb
  apply car_unpack_pack
  · exact StrFits_bytes_to_str (b.take 10) 10
      (by simp only [List.length_take]; omega) s1
  · exact StrFits_bytes_to_str ((b.drop 10).take 10) 10
      (by simp only [List.length_take]; omega) s2
  · exact StrFits_bytes_to_str ((b.drop 20).take 20) 20
      (by simp only [List.length_take]; omega) s3
  · exact StrFits_bytes_to_str ((b.drop 40).take 30) 30
      (by simp only [List.length_take]; omega) s4
  · show leToNat ((b.drop 70).take 4) < 2 ^ 32
    have h4 : ((b.drop 70).take 4).length = 4 := by
      simp only [List.length_take, List.length_drop, hb]
      omega
    have := leToNat_lt ((b.drop 70).take 4)
    rw [h4, show (256 : Nat) ^ 4 = 2 ^ 32 by norm_num] at this
    exact this
  · show leToNat ((b.drop 74).take 8) < 2 ^ 64
    have h8 : ((b.drop 74).take 8).length = 8 := by
      simp only [List.length_take, List.length_drop, hb]
      omega
    have := leToNat_lt ((b.drop 74).take 8)
    rw [h8, show (256 : Nat) ^ 8 = 2 ^ 64 by norm_num] at this
    exact this
  · show StrFits strDeleted 10
    decide
  · exact StrFits_bytes_to_str ((b.drop 92).take 3) 3
      (by simp only [List.length_take]; omega) s5

/-- C6 (amended): on a store with exactly one record matching the id,
`mark_deleted` succeeds, the record count is unchanged, every non-matching
block is byte-for-byte unchanged, and the matching record re-decodes to its old
entity with only `status` set to `'Deleted'` — provided none of the matched
record's retained decoded fields ends in a space character (always the case for
records packed from space-free fields; decoding strips trailing spaces, so a
field can end in a space only via invalid UTF-8 in the stored block). -/
theorem c6_soft_delete_amended (car_id : Str) (file : List Nat)
    (huniq : (chunks CAR_RECORD_SIZE file).countP
      (fun b => (Car.unpack b).car_id == car_id) = 1)
    (hstable : ∀ b ∈ chunks CAR_RECORD_SIZE file,
      (Car.unpack b).car_id = car_id → CarStrsStable (Car.unpack b)) :
    (carMarkDeleted car_id file).1 = true ∧
    (chunks CAR_RECORD_SIZE (carMarkDeleted car_id file).2).length =
      (chunks CAR_RECORD_SIZE file).length ∧
    chunks CAR_RECORD_SIZE (carMarkDeleted car_id file).2 =
      (chunks CAR_RECORD_SIZE file).map
        (fun b => if (Car.unpack b).car_id == car_id
          then Car.pack { Car.unpack b with status := strDeleted } else b) ∧
    (∀ b ∈ chunks CAR_RECORD_SIZE file, (Car.unpack b).car_id = car_id →
      Car.unpack (Car.pack { Car.unpack b with status := strDeleted }) =
        { Car.unpack b with status := strDeleted }) := by
  have hany : (chunks CAR_RECORD_SIZE file).any
      (fun b => (Car.unpack b).car_id == car_id) = true := by
    rw [List.any_eq_true]
    exact List.countP_pos_iff.mp (by omega)
  have hflat : chunks CAR_RECORD_SIZE
      (((chunks CAR_RECORD_SIZE file).map
        (fun b => if (Car.unpack b).car_id == car_id
          then Car.pack { Car.unpack b with status := strDeleted } else b)).flatten) =
      (chunks CAR_RECORD_SIZE file).map
        (fun b => if (Car.unpack b).car_id == car_id
          then Car.pack { Car.unpack b with status := strDeleted } else b) := by
    apply chunks_flatten (by rw [CAR_RECORD_SIZE]; omega)
    intro x hx
    rcases List.mem_map.mp hx with ⟨b, hb, he⟩
    by_cases hmatch : ((Car.unpack b).car_id == car_id) = true
    · rw [if_pos hmatch] at he
      rw [← he]
      exact length_Car_pack _
    · rw [if_neg hmatch] at he
      rw [← he]
      exact length_of_mem_chunks hb
  have hrepack : ∀ b ∈ chunks CAR_RECORD_SIZE file, (Car.unpack b).car_id = car_id →
      Car.unpack (Car.pack { Car.unpack b with status := strDeleted }) =
        { Car.unpack b with status := strDeleted } := fun b hb hid =>
    car_unpack_repack_deleted b (length_of_mem_chunks hb) (hstable b hb hid)
  unfold carMarkDeleted
  dsimp only
  rw [if_pos hany]
  exact ⟨rfl, by rw [hflat, List.length_map], hflat, hrepack⟩

/-! ## Concrete entities and stores used by the witnesses -/

/-- Car "C001", plate "AB12", brand "Toy", model "Camry", year 2023, daily rate
bit pattern 2500, status "Active", rented "No". -/
def carC001 : Car :=
  ⟨[67, 48, 48, 49], [65, 66, 49, 50], [84, 111, 121], [67, 97, 109, 114, 121], 2023, 2500,
    [65, 99, 116, 105, 118, 101], [78, 111]⟩

/-- Car "C002". -/
def carC002 : Car :=
  ⟨[67, 48, 48, 50], [67, 68, 51, 52], [72, 111, 110], [67, 105, 118, 105, 99], 2022, 2000,
    [65, 99, 116, 105, 118, 101], [78, 111]⟩

/-- Customer "U1". -/
def custU1 : Customer := ⟨[85, 49], [65, 110, 110], [49, 50, 51], [48, 56, 49], [101, 64, 120]⟩

/-- Customer "U2". -/
def custU2 : Customer := ⟨[85, 50], [66, 111, 98], [52, 53, 54], [48, 56, 50], [102, 64, 120]⟩

/-- Contract "T1". -/
def contractT1 : Contract :=
  ⟨[84, 49], [67, 48, 48, 49], [85, 49], [50, 48, 50, 53, 45, 48, 57, 45, 50, 48],
    [50, 48, 50, 53, 45, 48, 57, 45, 50, 53], 15000, [97, 99, 116, 105, 118, 101]⟩

/-- A two-record car store. -/
def carFile2 : List Nat := Car.pack carC001 ++ Car.pack carC002

/-- A two-record customer store. -/
def custFile2 : List Nat := Customer.pack custU1 ++ Customer.pack custU2

/-- A one-record contract store. -/
def contractFile1 : List Nat := Contract.pack contractT1

/-- A one-record car store whose single block holds invalid UTF-8 in the plate
field: id "C1", plate bytes `[0x20, 0xFF]` then padding, all other text fields
blank, year and rate zero, status "Active", rented "No ". -/
def c6File : List Nat :=
  [67, 49] ++ List.replicate 8 32 ++
    ([32, 255] ++ List.replicate 8 32) ++
    List.replicate 20 32 ++ List.replicate 30 32 ++
    List.replicate 4 0 ++ List.replicate 8 0 ++
    ([65, 99, 116, 105, 118, 101] ++ List.replicate 4 32) ++
    [78, 111, 32]

/-- C1, counterexample to the claim as stated: the customer id `"a "` is
validly-encodable text of two UTF-8 bytes (well within the 10-byte field), yet
`unpack(pack(v)) ≠ v` — the decoder strips the value's own trailing space
along with the padding. -/
theorem c1_counterexample :
    (ValidStr [97, 0x20] ∧ (utf8Encode [97, 0x20]).length ≤ 10) ∧
      Customer.unpack (Customer.pack ⟨[97, 0x20], [], [], [], []⟩) ≠
        ⟨[97, 0x20], [], [], [], []⟩ := by
  decide

/-- C1 (amended): for every Car, Customer or Contract whose text fields are
validly-encodable, fit their field byte widths, and do not end in a space
character (trailing spaces are stripped by decoding), and whose numeric fields
are representable (year a uint32, rate/cost bit patterns 64-bit),
`unpack(pack(v)) = v` field-for-field. -/
theorem c1_roundtrip_amended :
    (∀ c : Car, StrFits c.car_id 10 → StrFits c.plate 10 → StrFits c.brand 20 →
      StrFits c.model 30 → c.year < 2 ^ 32 → c.price_per_day < 2 ^ 64 →
      StrFits c.status 10 → StrFits c.rented 3 → Car.unpack (Car.pack c) = c) ∧
    (∀ c : Customer, StrFits c.cust_id 10 → StrFits c.name 50 → StrFits c.id_card 13 →
      StrFits c.phone 15 → StrFits c.email 50 → Customer.unpack (Customer.pack c) = c) ∧
    (∀ c : Contract, StrFits c.contract_id 10 → StrFits c.car_id 10 → StrFits c.cust_id 10 →
      StrFits c.start_date 10 → StrFits c.end_date 10 → c.total_cost < 2 ^ 64 →
      StrFits c.status 10 → Contract.unpack (Contract.pack c) = c) :=
  ⟨fun c h1 h2 h3 h4 hy hp h5 h6 => car_unpack_pack c h1 h2 h3 h4 hy hp h5 h6,
   fun c h1 h2 h3 h4 h5 => customer_unpack_pack c h1 h2 h3 h4 h5,
   fun c h1 h2 h3 h4 h5 hc h6 => contract_unpack_pack c h1 h2 h3 h4 h5 hc h6⟩

theorem c1_roundtrip_witness :
    Car.unpack (Car.pack carC001) = carC001 ∧
    Customer.unpack (Customer.pack custU1) = custU1 ∧
    Contract.unpack (Contract.pack contractT1) = contractT1 :=
  ⟨c1_roundtrip_amended.1 carC001 (by decide) (by decide) (by decide) (by decide)
      (by decide) (by decide) (by decide) (by decide),
   c1_roundtrip_amended.2.1 custU1 (by decide) (by decide) (by decide) (by decide) (by decide),
   c1_roundtrip_amended.2.2 contractT1 (by decide) (by decide) (by decide) (by decide)
      (by decide) (by decide) (by decide)⟩

/-- C6, counterexample to the claim as stated: on a store whose single record
(id "C1") holds the invalid UTF-8 plate bytes `[0x20, 0xFF]`, `mark_deleted`
succeeds on the unique match, but the record's decoded plate field changes
(from `" "` to `""`), not only its status field. -/
theorem c6_counterexample :
    (chunks CAR_RECORD_SIZE c6File).countP
      (fun b => (Car.unpack b).car_id == [67, 49]) = 1 ∧
    (carMarkDeleted [67, 49] c6File).1 = true ∧
    (carAll (carMarkDeleted [67, 49] c6File).2).map Car.plate ≠
      (carAll c6File).map Car.plate := by
  decide

/-- C8: encoding a string whose UTF-8 byte length exceeds the field width `w`
yields exactly `w` bytes, truncated at the byte boundary, and `fixed_bytes`
never raises; `bytes_to_str` never raises on any block — it always returns a
string all of whose code points are Unicode scalar values. -/
theorem c8_truncation (s : Str) (w : Nat) (b : List Nat) (hover : w < (utf8Encode s).length) :
    (fixed_bytes s w).length = w ∧ fixed_bytes s w = (utf8Encode s).take w ∧
      ValidStr (bytes_to_str b) := by
  refine ⟨length_fixed_bytes s w, ?_, validStr_bytes_to_str b⟩
  unfold fixed_bytes
  dsimp only
  rw [show w - ((utf8Encode s).take w).length = 0 by
      simp only [List.length_take]; omega,
    List.replicate_zero, List.append_nil]

theorem c8_truncation_witness :
    (fixed_bytes [0x0E01, 0x0E02] 5).length = 5 ∧
    fixed_bytes [0x0E01, 0x0E02] 5 = (utf8Encode [0x0E01, 0x0E02]).take 5 ∧
    ValidStr (bytes_to_str [32, 255]) :=
  c8_truncation [0x0E01, 0x0E02] 5 [32, 255] (by decide)

/-- C9: the inclusive day count from "2025-09-20" to "2025-09-25" is 6, and a
contract at daily rate 2500.00 over those days costs exactly 15000.00 (the
double arithmetic is exact at these magnitudes). -/
theorem c9_contract_cost :
    date_diff_days [50, 48, 50, 53, 45, 48, 57, 45, 50, 48]
      [50, 48, 50, 53, 45, 48, 57, 45, 50, 53] = some 6 ∧
    add_contract_est_cost 6 2500 = 15000 := by
  constructor
  · decide
  · norm_num [add_contract_est_cost]

/-- C10: whenever the end date precedes the start date (Python date order),
`date_diff_days` clamps to exactly 0; additionally its result is never
negative, and a contract cost computed from 0 days is 0 whatever the rate. -/
theorem c10_clamp (a b : Str) (da db : Nat × Nat × Nat)
    (ha : parse_date a = some da) (hb : parse_date b = some db) (hprec : dateLt db da) :
    date_diff_days a b = some 0 ∧
    (∀ (x y : Str) (r : Int), date_diff_days x y = some r → 0 ≤ r) ∧
    (∀ rate : ℚ, add_contract_est_cost 0 rate = 0) := by
  refine ⟨?_, ?_, ?_⟩
  · obtain ⟨ya, ma, daa⟩ := da
    obtain ⟨yb, mb, dbb⟩ := db
    obtain ⟨hy1, hm1, hm1u, hd1, hd1u⟩ := parse_date_valid ha
    obtain ⟨hy2, hm2, hm2u, hd2, hd2u⟩ := parse_date_valid hb
    have hlt : toordinal yb mb dbb < toordinal ya ma daa :=
      toordinal_lt_of_dateLt hy2 hm2 hm2u hd2 hd2u hy1 hm1 hm1u hd1 hprec
    unfold date_diff_days
    rw [ha, hb]
    simp only [Option.some.injEq]
    omega
  · intro x y r h
    unfold date_diff_days at h
    cases hx : parse_date x with
    | none => rw [hx] at h; simp at h
    | some px =>
      obtain ⟨px1, px2, px3⟩ := px
      cases hy : parse_date y with
      | none => rw [hx, hy] at h; simp at h
      | some py =>
        obtain ⟨py1, py2, py3⟩ := py
        rw [hx, hy] at h
        simp only [Option.some.injEq] at h
        omega
  · intro rate
    unfold add_contract_est_cost
    norm_num

theorem c2_add_duplicate_witness :
    carAdd carC001 carFile2 = (false, carFile2) ∧
    custAdd custU1 custFile2 = (false, custFile2) ∧
    contractAdd contractT1 contractFile1 = (false, contractFile1) :=
  ⟨c2_add_duplicate.1 carC001 carFile2 (by decide),
   c2_add_duplicate.2.1 custU1 custFile2 (by decide),
   c2_add_duplicate.2.2 contractT1 contractFile1 (by decide)⟩

theorem c3_update_frame_witness :
    (carUpdate [67, 48, 48, 49] carC002 carFile2).1 = true ∧
    chunks CAR_RECORD_SIZE (carUpdate [67, 48, 48, 49] carC002 carFile2).2 =
      (chunks CAR_RECORD_SIZE carFile2).map
        (fun b => if (Car.unpack b).car_id == [67, 48, 48, 49] then Car.pack carC002 else b) ∧
    (chunks CAR_RECORD_SIZE (carUpdate [67, 48, 48, 49] carC002 carFile2).2).length =
      (chunks CAR_RECORD_SIZE carFile2).length :=
  c3_update_frame [67, 48, 48, 49] carC002 carFile2 (by decide)

theorem c4_replace_all_atomic_witness :
    (runOps ⟨[9], [7]⟩ (overwrite_all_raw [[1], [2]])).main = [[1], [2]].flatten ∧
    (runOps ⟨[9], [7]⟩ ((overwrite_all_raw [[1], [2]]).take 2)).main = [9] :=
  ⟨(c4_replace_all_atomic [[1], [2]] ⟨[9], [7]⟩ 2 (by decide)).1,
   (c4_replace_all_atomic [[1], [2]] ⟨[9], [7]⟩ 2 (by decide)).2⟩

theorem c5_hard_delete_witness :
    ((delete_customer [85, 49] custFile2).1 = true ∧
      chunks CUST_RECORD_SIZE (delete_customer [85, 49] custFile2).2 =
        (chunks CUST_RECORD_SIZE custFile2).filter
          (fun b => !((Customer.unpack b).cust_id == [85, 49])) ∧
      (chunks CUST_RECORD_SIZE (delete_customer [85, 49] custFile2).2).length + 1 =
        (chunks CUST_RECORD_SIZE custFile2).length) ∧
    delete_customer [90] custFile2 = (false, custFile2) :=
  ⟨(c5_hard_delete [85, 49] custFile2).1 (by decide),
   (c5_hard_delete [90] custFile2).2 (by decide)⟩

theorem c6_soft_delete_witness :
    (carMarkDeleted [67, 48, 48, 49] carFile2).1 = true ∧
    (chunks CAR_RECORD_SIZE (carMarkDeleted [67, 48, 48, 49] carFile2).2).length =
      (chunks CAR_RECORD_SIZE carFile2).length ∧
    chunks CAR_RECORD_SIZE (carMarkDeleted [67, 48, 48, 49] carFile2).2 =
      (chunks CAR_RECORD_SIZE carFile2).map
        (fun b => if (Car.unpack b).car_id == [67, 48, 48, 49]
          then Car.pack { Car.unpack b with status := strDeleted } else b) ∧
    (∀ b ∈ chunks CAR_RECORD_SIZE carFile2, (Car.unpack b).car_id = [67, 48, 48, 49] →
      Car.unpack (Car.pack { Car.unpack b with status := strDeleted }) =
        { Car.unpack b with status := strDeleted }) :=
  c6_soft_delete_amended [67, 48, 48, 49] carFile2 (by decide) (by decide)

theorem c7_not_found_witness :
    (carUpdate [90] carC001 carFile2 = (false, carFile2) ∧
      carMarkDeleted [90] carFile2 = (false, carFile2)) ∧
    custUpdate [90] custU1 carFile2 = (false, carFile2) ∧
    contractUpdate [90] contractT1 carFile2 = (false, carFile2) :=
  ⟨(c7_not_found [90] carC001 custU1 contractT1 carFile2).1 (by decide),
   (c7_not_found [90] carC001 custU1 contractT1 carFile2).2.1 (by decide),
   (c7_not_found [90] carC001 custU1 contractT1 carFile2).2.2 (by decide)⟩

theorem c10_clamp_witness :
    date_diff_days [50, 48, 50, 53, 45, 48, 57, 45, 50, 53]
      [50, 48, 50, 53, 45, 48, 57, 45, 50, 48] = some 0 ∧
    (∀ (x y : Str) (r : Int), date_diff_days x y = some r → 0 ≤ r) ∧
    (∀ rate : ℚ, add_contract_est_cost 0 rate = 0) :=
  c10_clamp [50, 48, 50, 53, 45, 48, 57, 45, 50, 53]
    [50, 48, 50, 53, 45, 48, 57, 45, 50, 48] (2025, 9, 25) (2025, 9, 20)
    (by decide) (by decide) (by decide)
